import Mathlib

/-!
# Verification of `skill-manager-treeshell` dashboard operations

Shallow embedding of the repository's dashboard subsystem
(`src/build/lib/skillmanager_treeshell/dashboard_operations.py`) and of the
MCP server dispatch boundary (`src/mcp_server/user_server.py`).

The dashboard is a JSON document persisted with Python's
`json.dumps(data, indent=2)` and read back with `json.loads`.  We model:

* `Json` — the value space of Python's `json` module restricted to the
  values this repository produces (objects, arrays, strings, booleans,
  integers, null).  Floats never occur in the dashboard document and are
  outside the model.
* `renderJson` / `dumps` — `json.dumps(v, indent=2)` (the exact argument
  used by `_save_dashboard`), including `ensure_ascii` escaping.
* `parseValue` / `loads` — `json.loads`, a fuel-indexed recursive-descent
  reader of the same grammar.
* `Dashboard` and the per-operation functions — the typed view of a
  well-shaped dashboard document, translated line by line from
  `dashboard_operations.py`.
-/

namespace SkillManagerTreeshell

/-- JSON values as produced/consumed by Python's `json` module, restricted
to the shapes this repository stores (no floats).  Object members are kept
in insertion order, as Python dicts do. -/
inductive Json where
  | null
  | bool (b : Bool)
  | int (n : Int)
  | str (s : String)
  | arr (elems : List Json)
  | obj (members : List (String × Json))
deriving Repr

/-- Curly brace characters, written via code points. -/
def lbrace : Char := Char.ofNat 123

def rbrace : Char := Char.ofNat 125

/-- Lower-case hex digit for a value `< 16`, as Python's `'\u{0:04x}'`
formatting uses. -/
def hexDigit (n : Nat) : Char :=
  if n < 10 then Char.ofNat (48 + n) else Char.ofNat (87 + n)

/-- Four lower-case hex digits of `n < 0x10000`. -/
def hex4 (n : Nat) : List Char :=
  [hexDigit (n / 4096), hexDigit (n / 256 % 16), hexDigit (n / 16 % 16), hexDigit (n % 16)]

/-- Escaping of one character inside a JSON string literal, following
Python `json.dumps` with its default `ensure_ascii=True`: printable ASCII
other than `"` and `\` is literal, the standard short escapes are used,
every other character becomes `\uXXXX` (a surrogate pair above the BMP). -/
def escapeChar (c : Char) : List Char :=
  if c = '"' then ['\\', '"']
  else if c = '\\' then ['\\', '\\']
  else if c = '\n' then ['\\', 'n']
  else if c = '\t' then ['\\', 't']
  else if c = '\r' then ['\\', 'r']
  else if c.toNat = 8 then ['\\', 'b']
  else if c.toNat = 12 then ['\\', 'f']
  else if 32 ≤ c.toNat ∧ c.toNat ≤ 126 then [c]
  else if c.toNat < 65536 then '\\' :: 'u' :: hex4 c.toNat
  else
    '\\' :: 'u' :: hex4 (55296 + (c.toNat - 65536) / 1024) ++
      ('\\' :: 'u' :: hex4 (56320 + (c.toNat - 65536) % 1024))

/-- A quoted, escaped JSON string literal. -/
def quoteStr (s : String) : List Char :=
  '"' :: s.data.flatMap escapeChar ++ ['"']

/-- Decimal digits of `n`, most significant first. -/
def natDigits (n : Nat) : List Char :=
  if h : n < 10 then [Char.ofNat (48 + n)]
  else natDigits (n / 10) ++ [Char.ofNat (48 + n % 10)]
decreasing_by exact Nat.div_lt_self (by omega) (by omega)

/-- Decimal rendering of an integer, as Python prints `int`. -/
def intChars (n : Int) : List Char :=
  if n < 0 then '-' :: natDigits n.natAbs else natDigits n.natAbs

/-- The indentation emitted by `json.dumps(·, indent=2)` at nesting
depth `d`. -/
def indentChars (d : Nat) : List Char := List.replicate (2 * d) ' '

mutual

/-- `json.dumps(v, indent=2)` at nesting depth `d`, as a character list. -/
def renderJson : Json → Nat → List Char
  | .null, _ => ['n', 'u', 'l', 'l']
  | .bool true, _ => ['t', 'r', 'u', 'e']
  | .bool false, _ => ['f', 'a', 'l', 's', 'e']
  | .int n, _ => intChars n
  | .str s, _ => quoteStr s
  | .arr [], _ => ['[', ']']
  | .arr (e :: es), d =>
      '[' :: '\n' :: (indentChars (d + 1) ++ renderJson e (d + 1) ++
        renderElems es (d + 1) ++ '\n' :: indentChars d ++ [']'])
  | .obj [], _ => [lbrace, rbrace]
  | .obj (m :: ms), d =>
      lbrace :: '\n' :: (indentChars (d + 1) ++ quoteStr m.1 ++
        ':' :: ' ' :: renderJson m.2 (d + 1) ++
        renderMembers ms (d + 1) ++ '\n' :: indentChars d ++ [rbrace])

/-- The `",\n" + indent + element` tail of a non-empty rendered array. -/
def renderElems : List Json → Nat → List Char
  | [], _ => []
  | e :: es, d =>
      ',' :: '\n' :: (indentChars d ++ renderJson e d ++ renderElems es d)

/-- The `",\n" + indent + key + ": " + value` tail of a non-empty rendered
object. -/
def renderMembers : List (String × Json) → Nat → List Char
  | [], _ => []
  | m :: ms, d =>
      ',' :: '\n' :: (indentChars d ++ quoteStr m.1 ++
        ':' :: ' ' :: renderJson m.2 d ++ renderMembers ms d)

end

/-- `json.dumps(v, indent=2)` —the serialization `_save_dashboard` writes. -/
def dumps (v : Json) : String := String.mk (renderJson v 0)

/-! ## `json.loads`

A recursive-descent reader for the grammar accepted by Python's
`json.loads` (strict mode, which is its default): the four whitespace
characters, `null`/`true`/`false`, integers (floats are outside the model:
inputs containing them are rejected rather than mis-read), strings with
the standard escapes (`\uXXXX` limited to basic-plane scalars, since lone
surrogates are not representable as Lean `Char`s), arrays and objects.
Duplicate object keys keep the first position and the last value, as
building a Python `dict` from parsed pairs does.  Recursion is indexed by
a fuel argument; `loads` supplies fuel that dominates the recursion depth
reachable on its input (each two units of fuel consume at least one input
character). -/

/-- JSON whitespace, as skipped by Python's `json` reader. -/
def isWs (c : Char) : Bool := c = ' ' || c = '\t' || c = '\n' || c = '\r'

/-- Drop leading JSON whitespace. -/
def skipWs : List Char → List Char
  | [] => []
  | c :: cs => if isWs c then skipWs cs else c :: cs

/-- Numeric value of a hex digit character. -/
def hexVal (c : Char) : Option Nat :=
  if 48 ≤ c.toNat ∧ c.toNat ≤ 57 then some (c.toNat - 48)
  else if 97 ≤ c.toNat ∧ c.toNat ≤ 102 then some (c.toNat - 87)
  else if 65 ≤ c.toNat ∧ c.toNat ≤ 70 then some (c.toNat - 55)
  else none

/-- Read the body of a string literal up to and including the closing
quote, returning the decoded characters and the remaining input. -/
def parseStringBody : List Char → Option (List Char × List Char)
  | [] => none
  | c :: cs =>
    if c = '"' then some ([], cs)
    else if c = '\\' then
      match cs with
      | [] => none
      | e :: cs' =>
        if e = '"' then (parseStringBody cs').map fun p => ('"' :: p.1, p.2)
        else if e = '\\' then (parseStringBody cs').map fun p => ('\\' :: p.1, p.2)
        else if e = '/' then (parseStringBody cs').map fun p => ('/' :: p.1, p.2)
        else if e = 'b' then (parseStringBody cs').map fun p => (Char.ofNat 8 :: p.1, p.2)
        else if e = 'f' then (parseStringBody cs').map fun p => (Char.ofNat 12 :: p.1, p.2)
        else if e = 'n' then (parseStringBody cs').map fun p => ('\n' :: p.1, p.2)
        else if e = 'r' then (parseStringBody cs').map fun p => ('\r' :: p.1, p.2)
        else if e = 't' then (parseStringBody cs').map fun p => ('\t' :: p.1, p.2)
        else if e = 'u' then
          match cs' with
          | h1 :: h2 :: h3 :: h4 :: cs'' =>
            match hexVal h1, hexVal h2, hexVal h3, hexVal h4 with
            | some a, some b, some c3, some d =>
              let n := a * 4096 + b * 256 + c3 * 16 + d
              if h : n < 55296 then
                (parseStringBody cs'').map fun p => (Char.ofNatAux n (Or.inl h) :: p.1, p.2)
              else if h' : 57344 ≤ n ∧ n < 1114112 then
                (parseStringBody cs'').map fun p => (Char.ofNatAux n (Or.inr h') :: p.1, p.2)
              else none
            | _, _, _, _ => none
          | _ => none
        else none
    else if c.toNat < 32 then none
    else (parseStringBody cs).map fun p => (c :: p.1, p.2)

/-- A decimal digit character. -/
def charIsDigit (c : Char) : Bool := 48 ≤ c.toNat && c.toNat ≤ 57

/-- Split the longest run of leading decimal digits off the input. -/
def takeDigits : List Char → List Char × List Char
  | [] => ([], [])
  | c :: cs =>
    if charIsDigit c then
      let p := takeDigits cs
      (c :: p.1, p.2)
    else ([], c :: cs)

/-- Fold decimal digits onto an accumulator. -/
def digitsToNat (acc : Nat) : List Char → Nat
  | [] => acc
  | c :: cs => digitsToNat (acc * 10 + (c.toNat - 48)) cs

theorem digitsToNat_nil (acc : Nat) : digitsToNat acc [] = acc := rfl

theorem digitsToNat_cons (acc : Nat) (c : Char) (cs : List Char) :
    digitsToNat acc (c :: cs) = digitsToNat (acc * 10 + (c.toNat - 48)) cs :=
  rfl

/-- Read a JSON unsigned integer: `0` alone, or a nonzero digit followed
by further digits (the `json` grammar forbids leading zeros). -/
def parseNat : List Char → Option (Nat × List Char)
  | [] => none
  | c :: cs =>
    if c = '0' then some (0, cs)
    else if charIsDigit c then
      let p := takeDigits cs
      some (digitsToNat (c.toNat - 48) p.1, p.2)
    else none

/-- Record a parsed object member the way `dict(pairs)` does: a repeated
key keeps its first position and takes the new value. -/
def insertPair (acc : List (String × Json)) (k : String) (v : Json) :
    List (String × Json) :=
  if acc.any (fun p => p.1 = k) then
    acc.map fun p => if p.1 = k then (k, v) else p
  else acc ++ [(k, v)]

/-- Rebuild the member list of an object from its parsed pairs, with
Python's duplicate-key semantics. -/
def dedupPairs (pairs : List (String × Json)) : List (String × Json) :=
  pairs.foldl (fun acc p => insertPair acc p.1 p.2) []

/-- Require an exact run of characters at the head of the input. -/
def stripChars : List Char → List Char → Option (List Char)
  | [], r => some r
  | p :: ps, c :: cs => if c = p then stripChars ps cs else none
  | _ :: _, [] => none

mutual

/-- Read one JSON value from the input (which must start with the value:
the caller skips leading whitespace), returning it and the rest. -/
def parseValue : Nat → List Char → Option (Json × List Char)
  | 0, _ => none
  | _ + 1, [] => none
  | fuel + 1, c :: r =>
    if c = 'n' then
      (stripChars ['u', 'l', 'l'] r).map fun r' => (.null, r')
    else if c = 't' then
      (stripChars ['r', 'u', 'e'] r).map fun r' => (.bool true, r')
    else if c = 'f' then
      (stripChars ['a', 'l', 's', 'e'] r).map fun r' => (.bool false, r')
    else if c = '"' then
      (parseStringBody r).map fun p => (.str (String.mk p.1), p.2)
    else if c = '-' then
      (parseNat r).map fun p => (.int (-(p.1 : Int)), p.2)
    else if c = '[' then
      match skipWs r with
      | [] => none
      | x :: r' =>
        if x = ']' then some (.arr [], r')
        else (parseElems fuel (x :: r')).map fun p => (.arr p.1, p.2)
    else if c = lbrace then
      match skipWs r with
      | [] => none
      | x :: r' =>
        if x = rbrace then some (.obj [], r')
        else (parseMembers fuel (x :: r')).map fun p => (.obj (dedupPairs p.1), p.2)
    else if charIsDigit c then
      (parseNat (c :: r)).map fun p => (.int (p.1 : Int), p.2)
    else none

/-- Read `value (ws ',' ws value)* ws ']'` — the elements of a non-empty
array, starting at the first value. -/
def parseElems : Nat → List Char → Option (List Json × List Char)
  | 0, _ => none
  | fuel + 1, cs =>
    match parseValue fuel cs with
    | none => none
    | some (v, r) =>
      match skipWs r with
      | [] => none
      | x :: r' =>
        if x = ',' then
          match parseElems fuel (skipWs r') with
          | none => none
          | some (es, r'') => some (v :: es, r'')
        else if x = ']' then some ([v], r')
        else none

/-- Read `string ws ':' ws value (ws ',' ws …)* ws '}'` — the members of a
non-empty object, starting at the first key's opening quote. -/
def parseMembers : Nat → List Char → Option (List (String × Json) × List Char)
  | 0, _ => none
  | _ + 1, [] => none
  | fuel + 1, c :: r =>
    if c = '"' then
      match parseStringBody r with
      | none => none
      | some (k, r1) =>
        match skipWs r1 with
        | [] => none
        | x :: r2 =>
          if x = ':' then
            match parseValue fuel (skipWs r2) with
            | none => none
            | some (v, r3) =>
              match skipWs r3 with
              | [] => none
              | y :: r4 =>
                if y = ',' then
                  match parseMembers fuel (skipWs r4) with
                  | none => none
                  | some (ms, r5) => some ((String.mk k, v) :: ms, r5)
                else if y = rbrace then some ([(String.mk k, v)], r4)
                else none
          else none
    else none

end

/-- `json.loads` on a whole document: skip whitespace, read one value,
require only whitespace to remain.  The fuel `2 * length + 2` dominates
the recursion depth on every input (each two units of fuel consume at
least one character). -/
def loads (s : String) : Option Json :=
  match parseValue (2 * s.length + 2) (skipWs s.data) with
  | some (v, r) => if skipWs r = [] then some v else none
  | none => none

/-! ## The dashboard document and its operations

Typed view of a well-shaped dashboard document and the operations of
`dashboard_operations.py`, translated line by line.  Python dicts preserve
insertion order, so `favorite_skills` is an association list; a mutating
operation returns the document that `_save_dashboard` persists (when the
Python code takes the no-save path, the stored document is the loaded one,
unchanged).  `datetime.now().isoformat()` is nondeterministic input; each
tracking/creating operation takes the timestamp string as a parameter. -/

/-- One record of `recently_made` / `recently_equipped`: the Python code
appends `{"name": …, "time": …}` — exactly two fields. -/
structure Entry where
  name : String
  time : String
deriving Repr, DecidableEq

/-- One issue record, as built by `_dashboard_create_issue`. -/
structure Issue where
  id : String
  title : String
  body : String
  tags : List String
  created : String
deriving Repr, DecidableEq

/-- The dashboard document (the shape `_load_dashboard` defaults and every
operation expects). -/
structure Dashboard where
  favorite_skills : List (String × List String)
  favorite_personas : List String
  recently_made : List Entry
  recently_equipped : List Entry
  issues : List Issue
deriving Repr, DecidableEq

/-- The zero-value document `_load_dashboard` returns when the backing
file is absent. -/
def emptyDashboard : Dashboard :=
  { favorite_skills := [], favorite_personas := [], recently_made := [],
    recently_equipped := [], issues := [] }

/-- `{"name": e.name, "time": e.time}` — the serialized form of a recency
record, with exactly the two keys the Python dict literal has. -/
def entryToJson (e : Entry) : Json :=
  .obj [("name", .str e.name), ("time", .str e.time)]

/-- Serialized form of an issue record. -/
def issueToJson (i : Issue) : Json :=
  .obj [("id", .str i.id), ("title", .str i.title), ("body", .str i.body),
    ("tags", .arr (i.tags.map .str)), ("created", .str i.created)]

/-- Serialized form of the whole document, with its five top-level keys. -/
def dashboardToJson (d : Dashboard) : Json :=
  .obj [("favorite_skills",
      .obj (d.favorite_skills.map fun p => (p.1, .arr (p.2.map .str)))),
    ("favorite_personas", .arr (d.favorite_personas.map .str)),
    ("recently_made", .arr (d.recently_made.map entryToJson)),
    ("recently_equipped", .arr (d.recently_equipped.map entryToJson)),
    ("issues", .arr (d.issues.map issueToJson))]

/-- `m[c]` on the association list view of a Python dict. -/
def assocGet (m : List (String × List String)) (c : String) :
    Option (List String) :=
  (m.find? fun p => p.1 = c).map fun p => p.2

/-- `m[c] = v` on a dict that already has key `c`: replace the value at
the first (only) occurrence of the key. -/
def assocSet (m : List (String × List String)) (c : String)
    (v : List String) : List (String × List String) :=
  match m with
  | [] => []
  | p :: t => if p.1 = c then (p.1, v) :: t else p :: assocSet t c v

/-- Python's `list[-n:]` for non-negative `n`: the whole list when
`n = 0` (since `-0 == 0`), otherwise the last `n` elements. -/
def pyTakeLastSlice (n : Nat) (xs : List α) : List α :=
  if n = 0 then xs else xs.drop (xs.length - n)

/-- The `if category not in data["favorite_skills"]` block of
`_dashboard_fav_skills_add`: create the category with an empty skill list
when absent. -/
def ensureCat (m : List (String × List String)) (c : String) :
    List (String × List String) :=
  if (m.find? fun p => p.1 = c).isSome then m else m ++ [(c, [])]

/-- `_dashboard_fav_skills_add`: create the category if absent, append the
skill if not already present (and save), otherwise report it as already a
favorite (without saving). -/
def favSkillsAdd (d : Dashboard) (skill_name : String)
    (category : String := "general") : Dashboard × String :=
  if skill_name ∈ (assocGet (ensureCat d.favorite_skills category) category).getD [] then
    (d, "'" ++ skill_name ++ "' already in favorites")
  else
    ({ d with favorite_skills :=
        (assocSet (ensureCat d.favorite_skills category) category
          ((assocGet (ensureCat d.favorite_skills category) category).getD []
            ++ [skill_name])) },
      "Added '" ++ skill_name ++ "' to favorites under '" ++ category ++ "'")

/-- `track_made`: append a `{name, time}` record and keep the last 50. -/
def track_made (d : Dashboard) (skill_name : String) (now : String) :
    Dashboard :=
  { d with recently_made :=
      pyTakeLastSlice 50 (d.recently_made ++ [⟨skill_name, now⟩]) }

/-- `track_equipped`: append a `{name, time}` record and keep the last
50. -/
def track_equipped (d : Dashboard) (name : String) (now : String) :
    Dashboard :=
  { d with recently_equipped :=
      pyTakeLastSlice 50 (d.recently_equipped ++ [⟨name, now⟩]) }

/-- The `"  - name (time)"` lines of a recents listing. -/
def recentLines (recents : List Entry) : String :=
  String.intercalate "\n"
    (recents.map fun r => "  - " ++ r.name ++ " (" ++ r.time ++ ")")

/-- `_dashboard_recently_made`: render the `[-limit:]` slice of the log,
or the none-tracked message when that slice is empty. -/
def recently_made_listing (d : Dashboard) (limit : Nat := 10) : String :=
  let recents := pyTakeLastSlice limit d.recently_made
  if recents.isEmpty then "No recently made skills tracked."
  else "=== Recently Made ===\n" ++ recentLines recents

/-- `_dashboard_recently_equipped`, same shape over the other log. -/
def recently_equipped_listing (d : Dashboard) (limit : Nat := 10) : String :=
  let recents := pyTakeLastSlice limit d.recently_equipped
  if recents.isEmpty then "No recently equipped items tracked."
  else "=== Recently Equipped ===\n" ++ recentLines recents

/-- `tags.split(",") if tags else []`. -/
def splitTags (tags : String) : List String :=
  if tags = "" then [] else tags.splitOn ","

/-- `_dashboard_create_issue`: build the issue with positional id
`"issue_" + (len(issues) + 1)`, append it, and return the confirmation. -/
def create_issue (d : Dashboard) (title : String) (body : String)
    (tags : String := "") (now : String := "") : Dashboard × String :=
  let issue : Issue :=
    { id := "issue_" ++ toString (d.issues.length + 1), title := title,
      body := body, tags := splitTags tags, created := now }
  ({ d with issues := d.issues ++ [issue] },
    "Created issue: " ++ issue.id ++ " - " ++ title)

/-- The one-line summary of an issue in the all-issues listing. -/
def issueLine (i : Issue) : String :=
  "[" ++ i.id ++ "] " ++ i.title ++ " (" ++ i.created.take 10 ++ ")"

/-- The full detail view of one issue. -/
def issueDetail (i : Issue) : String :=
  "=== " ++ i.title ++ " ===\nID: " ++ i.id ++ "\nTags: " ++
    String.intercalate ", " i.tags ++ "\nCreated: " ++ i.created ++
    "\n\n" ++ i.body

/-- `_dashboard_review_issues`: `"No issues."` when the list is empty, the
all-issues listing when no id was given, otherwise the detail of the first
matching issue or a not-found message. -/
def review_issues (d : Dashboard) (issue_id : String := "") : String :=
  if d.issues.isEmpty then "No issues."
  else if issue_id = "" then
    "=== Issues ===\n" ++ String.intercalate "\n" (d.issues.map issueLine)
  else
    match d.issues.find? fun i => i.id = issue_id with
    | some i => issueDetail i
    | none => "Issue '" ++ issue_id ++ "' not found"

/-! ## The store: `_load_dashboard` / `_save_dashboard`

The backing file is modelled as `Option String` (absent, or present with
its full content).  `_load_dashboard` either returns the parsed content,
returns the zero-value document when the file is absent, or fails the way
`json.loads` does — the module defines no `CorruptStateError` and performs
no shape check of the parsed value.  Neither outcome of a load writes to
the file, which the state component of the result records. -/

/-- The only error `_load_dashboard` can raise: `json.JSONDecodeError`
escaping from `json.loads`.  No `CorruptStateError` exists in the code. -/
inductive LoadError where
  | jsonDecodeError
deriving Repr, DecidableEq

/-- The five-key zero-value document, in serialized-value form. -/
def defaultDashboardJson : Json :=
  .obj [("favorite_skills", .obj []), ("favorite_personas", .arr []),
    ("recently_made", .arr []), ("recently_equipped", .arr []),
    ("issues", .arr [])]

/-- `_load_dashboard`, as a function of the backing-file state, returning
the outcome together with the (never modified) file state. -/
def load_dashboard (fs : Option String) :
    (Except LoadError Json) × Option String :=
  match fs with
  | none => (.ok defaultDashboardJson, none)
  | some s =>
    match loads s with
    | some v => (.ok v, some s)
    | none => (.error .jsonDecodeError, some s)

/-- `_save_dashboard` followed by nothing: the bytes written for a
value. -/
def save_dashboard (v : Json) : Option String := some (dumps v)

/-- The byte-level effect of `save(load())` on a present backing file with
no in-memory mutation in between: `none` when the load raises, otherwise
the bytes the save writes back. -/
def saveAfterLoad (content : String) : Option String :=
  (loads content).map dumps

/-- Does a parsed object have a given top-level key? -/
def jsonHasKey (v : Json) (k : String) : Bool :=
  match v with
  | .obj ms => ms.any fun p => p.1 = k
  | _ => false

/-- Is a parsed value a document of the expected shape?  Modelled from the
spec: the spec's "valid serialized document of the expected shape" — an
object carrying the five top-level collections, each of its container
kind.  `_load_dashboard` itself performs no such check. -/
def expectedShape (v : Json) : Bool :=
  match v with
  | .obj ms =>
    (ms.map fun p => p.1) =
        ["favorite_skills", "favorite_personas", "recently_made",
          "recently_equipped", "issues"] &&
      ms.all fun p =>
        match p.1, p.2 with
        | "favorite_skills", .obj _ => true
        | _, .arr _ => true
        | _, _ => false
  | _ => false

/-! ## Well-formed values for the round-trip theorem

`dumps` is injective-invertible on the values Python can actually hand
it: object member lists come from dicts, so their keys are distinct, and
every string is a sequence of Unicode scalars of the basic plane (Lean
`Char` cannot carry lone surrogates, and astral characters would serialize
as surrogate pairs, which the reader model does not recombine). -/

/-- Every character is a basic-plane scalar. -/
def wfStr (s : String) : Bool := s.data.all fun c => c.toNat < 65536

/-- Object keys pairwise distinct and all strings basic-plane, at every
level of the value. -/
def wfJson : Json → Bool
  | .null => true
  | .bool _ => true
  | .int _ => true
  | .str s => wfStr s
  | .arr [] => true
  | .arr (e :: es) => wfJson e && wfJson (.arr es)
  | .obj [] => true
  | .obj ((k, v) :: ms) =>
    wfStr k && wfJson v && !(ms.any fun p => p.1 = k) && wfJson (.obj ms)

/-! ## The MCP server boundary

`SkillManagerMCPServer.run_conversation_shell` (user_server.py): shell
construction and command handling are calls into external collaborators
(`SkillManagerTreeShell`, `render_response`); each is modelled as a value
of `Except String α`, `.error` standing for a raised exception.  The
method wraps both in `try/except` and always returns a structured dict. -/

/-- The structured result dictionary `run_conversation_shell` returns. -/
structure ShellResponse where
  success : Bool
  error : Option String
  command : Option String
  rendered_output : Option String
deriving Repr, DecidableEq

/-- `run_conversation_shell`: initialize the shell if needed (first
`try/except`), then dispatch the command and render the result (second
`try/except`).  `handler` models `shell.handle_command` composed with
`render_response`, both of which run inside the second `try`. -/
def run_conversation_shell (init : Except String Unit)
    (handler : String → Except String String) (command : String) :
    ShellResponse :=
  match init with
  | .error e =>
    { success := false, error := some ("Shell failed to initialize: " ++ e),
      command := none, rendered_output := none }
  | .ok _ =>
    match handler command with
    | .ok rendered =>
      { success := true, error := none, command := some command,
        rendered_output := some rendered }
    | .error e =>
      { success := false,
        error := some ("Error executing command '" ++ command ++ "': " ++ e),
        command := none, rendered_output := none }

/-! ## List-level lemmas for the recency logs -/

/-- The typed record built from one `(name, timestamp)` tracking call. -/
def mkEntry (p : String × String) : Entry := ⟨p.1, p.2⟩

theorem pyTakeLastSlice_absorb (n : Nat) (xs ys : List α) :
    pyTakeLastSlice n (pyTakeLastSlice n xs ++ ys)
      = pyTakeLastSlice n (xs ++ ys) := by
  unfold pyTakeLastSlice
  by_cases h0 : n = 0
  · simp [h0]
  · simp only [if_neg h0]
    by_cases hle : xs.length ≤ n
    · have h : xs.length - n = 0 := by omega
      simp [h]
    · have h1 : (xs.drop (xs.length - n)).length = n := by
        rw [List.length_drop]; omega
      rw [List.length_append, List.length_append, h1]
      have e1 : n + ys.length - n = ys.length := by omega
      have e2 : xs.length + ys.length - n = xs.length - n + ys.length := by
        omega
      have e4 : (xs ++ ys).drop (xs.length - n) = xs.drop (xs.length - n) ++ ys := by
        rw [List.drop_append_eq_append_drop]
        have e3 : xs.length - n - xs.length = 0 := by omega
        rw [e3, List.drop_zero]
      rw [e1, e2, ← List.drop_drop, e4]

/-- Folding `track_made` over a non-empty call list yields the last 50 of
the initial log followed by all tracked records. -/
theorem track_made_foldl :
    ∀ (calls : List (String × String)) (c : String × String) (d : Dashboard),
      ((c :: calls).foldl (fun d p => track_made d p.1 p.2) d).recently_made
        = pyTakeLastSlice 50 (d.recently_made ++ (c :: calls).map mkEntry)
  | [], c, d => by simp [track_made, mkEntry]
  | c' :: rest, c, d => by
    have ih := track_made_foldl rest c' (track_made d c.1 c.2)
    simp only [List.foldl_cons] at ih ⊢
    rw [ih]
    show pyTakeLastSlice 50
        (pyTakeLastSlice 50 (d.recently_made ++ [mkEntry c]) ++
          (c' :: rest).map mkEntry) = _
    rw [pyTakeLastSlice_absorb, List.append_assoc]
    rfl

/-- C1 — After `N ≥ 51` sequential `track_made` calls from any dashboard
state, the stored `recently_made` log has exactly 50 entries, its first
entry is the record of the `(N-49)`-th tracked call (index `N-50`), and
the newest record is last. -/
theorem C1_bounded_recency_log (d : Dashboard)
    (calls : List (String × String)) (h : 51 ≤ calls.length) :
    ((calls.foldl (fun d p => track_made d p.1 p.2) d).recently_made).length
        = 50 ∧
    ((calls.foldl (fun d p => track_made d p.1 p.2) d).recently_made).head?
        = (calls[calls.length - 50]?).map mkEntry ∧
    ((calls.foldl (fun d p => track_made d p.1 p.2) d).recently_made).getLast?
        = calls.getLast?.map mkEntry := by
  match calls, h with
  | c :: rest, h =>
    rw [track_made_foldl]
    set calls := c :: rest with hcalls
    have hN : 51 ≤ calls.length := h
    have hlen : (calls.map mkEntry).length = calls.length := List.length_map ..
    have hkey : pyTakeLastSlice 50 (d.recently_made ++ calls.map mkEntry)
        = (calls.map mkEntry).drop (calls.length - 50) := by
      unfold pyTakeLastSlice
      rw [if_neg (by omega), List.length_append, hlen,
        List.drop_append_eq_append_drop,
        List.drop_eq_nil_of_le (by omega), List.nil_append]
      congr 1
      omega
    rw [hkey]
    refine ⟨?_, ?_, ?_⟩
    · rw [List.length_drop, hlen]; omega
    · rw [List.head?_eq_getElem?, List.getElem?_drop, Nat.add_zero,
        List.getElem?_map]
    · rw [List.getLast?_drop, if_neg (by omega), List.getLast?_map]

/-- Closed instance of `C1_bounded_recency_log` at 51 concrete calls. -/
theorem C1_bounded_recency_log_witness :
    (((List.replicate 51 ("s", "t")).foldl
        (fun d p => track_made d p.1 p.2) emptyDashboard).recently_made).length
        = 50 ∧
    (((List.replicate 51 ("s", "t")).foldl
        (fun d p => track_made d p.1 p.2) emptyDashboard).recently_made).head?
        = ((List.replicate 51 ("s", "t"))[(List.replicate 51 ("s", "t")).length - 50]?).map
            mkEntry ∧
    (((List.replicate 51 ("s", "t")).foldl
        (fun d p => track_made d p.1 p.2) emptyDashboard).recently_made).getLast?
        = (List.replicate 51 ("s", "t")).getLast?.map mkEntry :=
  C1_bounded_recency_log emptyDashboard (List.replicate 51 ("s", "t"))
    (by simp)

/-- C2 — `create issue` on a document with `k` issues appends an issue
with id `"issue_" ++ toString (k+1)` and returns a confirmation string
containing that id. -/
theorem C2_issue_id_positional (d : Dashboard) (title body tags now : String) :
    (create_issue d title body tags now).1.issues
        = d.issues ++
          [{ id := "issue_" ++ toString (d.issues.length + 1), title := title,
             body := body, tags := splitTags tags, created := now }] ∧
    (create_issue d title body tags now).2
        = "Created issue: " ++ ("issue_" ++ toString (d.issues.length + 1)) ++
            (" - " ++ title) ∧
    ∃ pre post, (create_issue d title body tags now).2
        = pre ++ ("issue_" ++ toString (d.issues.length + 1)) ++ post := by
  refine ⟨rfl, by simp [create_issue, String.append_assoc], ?_⟩
  exact ⟨"Created issue: ", " - " ++ title,
    by simp [create_issue, String.append_assoc]⟩

/-- C8 — Each tracking call appends exactly one record, whose serialized
form is an object with exactly the two keys `name` and `time` (the
timestamp), at the end of the respective log; the remaining entries are a
suffix of the previous log in their original order. -/
theorem C8_track_record_shape (d : Dashboard) (n t : String) :
    (track_made d n t).recently_made
        = d.recently_made.drop (d.recently_made.length + 1 - 50) ++ [⟨n, t⟩] ∧
    (track_made d n t).recently_made.getLast? = some ⟨n, t⟩ ∧
    (track_equipped d n t).recently_equipped
        = d.recently_equipped.drop (d.recently_equipped.length + 1 - 50) ++
            [⟨n, t⟩] ∧
    (track_equipped d n t).recently_equipped.getLast? = some ⟨n, t⟩ ∧
    entryToJson ⟨n, t⟩ = .obj [("name", .str n), ("time", .str t)] := by
  have key : ∀ xs : List Entry,
      pyTakeLastSlice 50 (xs ++ [Entry.mk n t])
        = xs.drop (xs.length + 1 - 50) ++ [⟨n, t⟩] := by
    intro xs
    unfold pyTakeLastSlice
    rw [if_neg (by omega), List.length_append,
      List.drop_append_eq_append_drop]
    have e : xs.length + [Entry.mk n t].length - 50 - xs.length = 0 := by
      simp only [List.length_cons, List.length_nil]
      omega
    rw [e, List.drop_zero]
    norm_num
  refine ⟨key _, ?_, key _, ?_, rfl⟩ <;>
    · show (pyTakeLastSlice 50 _).getLast? = _
      rw [key, List.getLast?_concat]

/-! ## Favorites: association-list lemmas and idempotence -/

theorem find?_assocSet (m : List (String × List String)) (c : String)
    (v : List String) :
    ((assocSet m c v).find? fun p => p.1 = c)
      = (m.find? fun p => p.1 = c).map fun p => (p.1, v) := by
  induction m with
  | nil => rfl
  | cons p t ih =>
    by_cases h : p.1 = c
    · simp [assocSet, List.find?, h]
    · simp [assocSet, List.find?, h, ih]

theorem find?_ensureCat (m : List (String × List String)) (c : String) :
    ((ensureCat m c).find? fun p => p.1 = c).isSome = true := by
  unfold ensureCat
  by_cases h : (m.find? fun p => p.1 = c).isSome
  · simp [h]
  · rw [if_neg h, List.find?_append]
    have h' : (m.find? fun p => p.1 = c) = none :=
      Option.not_isSome_iff_eq_none.mp h
    simp [h', List.find?]

theorem ensureCat_of_isSome (m : List (String × List String)) (c : String)
    (h : (m.find? fun p => p.1 = c).isSome = true) : ensureCat m c = m := by
  unfold ensureCat
  rw [if_pos h]

/-- C3 — Adding the same favorite skill to the same category twice: the
second call leaves the document exactly as the first call left it and
reports the skill as already a favorite; the first call reports either a
successful add or an already-present skill (both calls return normally). -/
theorem C3_fav_skills_add_idempotent (d : Dashboard) (s c : String) :
    favSkillsAdd (favSkillsAdd d s c).1 s c
        = ((favSkillsAdd d s c).1, "'" ++ s ++ "' already in favorites") ∧
    ((favSkillsAdd d s c).2
          = "Added '" ++ s ++ "' to favorites under '" ++ c ++ "'" ∨
      (favSkillsAdd d s c).2 = "'" ++ s ++ "' already in favorites") := by
  by_cases hmem : s ∈ (assocGet (ensureCat d.favorite_skills c) c).getD []
  · have h1 : favSkillsAdd d s c = (d, "'" ++ s ++ "' already in favorites") := by
      rw [favSkillsAdd, if_pos hmem]
    refine ⟨?_, Or.inr (by rw [h1])⟩
    rw [h1]
    exact h1
  · have hmsg : (favSkillsAdd d s c).2
        = "Added '" ++ s ++ "' to favorites under '" ++ c ++ "'" := by
      rw [favSkillsAdd, if_neg hmem]
    refine ⟨?_, Or.inl hmsg⟩
    obtain ⟨p0, hp0⟩ := Option.isSome_iff_exists.mp
      (find?_ensureCat d.favorite_skills c)
    have hd1 : (favSkillsAdd d s c).1.favorite_skills
        = assocSet (ensureCat d.favorite_skills c) c
            ((assocGet (ensureCat d.favorite_skills c) c).getD [] ++ [s]) := by
      rw [favSkillsAdd, if_neg hmem]
    have hfind2 : ((favSkillsAdd d s c).1.favorite_skills.find?
        fun p => p.1 = c) = some (p0.1,
          (assocGet (ensureCat d.favorite_skills c) c).getD [] ++ [s]) := by
      rw [hd1, find?_assocSet, hp0]
      rfl
    have hsome2 : (((favSkillsAdd d s c).1.favorite_skills.find?
        fun p => p.1 = c).isSome) = true := by rw [hfind2]; rfl
    have hget2 : (assocGet (ensureCat (favSkillsAdd d s c).1.favorite_skills c)
        c).getD []
          = (assocGet (ensureCat d.favorite_skills c) c).getD [] ++ [s] := by
      rw [ensureCat_of_isSome _ _ hsome2]
      unfold assocGet
      rw [hfind2]
      rfl
    have hmem2 : s ∈ (assocGet
        (ensureCat (favSkillsAdd d s c).1.favorite_skills c) c).getD [] := by
      rw [hget2]
      exact List.mem_append_right _ (List.mem_singleton.mpr rfl)
    rw [favSkillsAdd, if_pos hmem2]

/-! ## Review issues: distinguishing the three output shapes -/

/-- Strings whose data lists start with different characters differ. -/
theorem string_ne_of_head_ne {a b : String} {x y : Char}
    {xs ys : List Char} (ha : a.data = x :: xs) (hb : b.data = y :: ys)
    (h : x ≠ y) : a ≠ b := by
  intro e
  rw [e, hb] at ha
  exact h (List.cons.injEq .. ▸ ha).1.symm

/-- The head of the data of `s ++ u` is the head of `s`'s data when `s` is
non-empty. -/
theorem data_append_cons {s : String} {c : Char} {t : List Char}
    (h : s.data = c :: t) (u : String) :
    (s ++ u).data = c :: (t ++ u.data) := by
  rw [String.data_append, h]
  rfl

theorem no_issues_ne_not_found (issue_id : String) :
    "No issues." ≠ "Issue '" ++ issue_id ++ "' not found" := by
  have h1 : ("Issue '" ++ issue_id).data
      = 'I' :: ("ssue '".data ++ issue_id.data) := data_append_cons rfl _
  exact string_ne_of_head_ne rfl (data_append_cons h1 _) (by decide)

theorem issueDetail_ne_not_found (i : Issue) (issue_id : String) :
    issueDetail i ≠ "Issue '" ++ issue_id ++ "' not found" := by
  unfold issueDetail
  have h1 : ("Issue '" ++ issue_id).data
      = 'I' :: ("ssue '".data ++ issue_id.data) := data_append_cons rfl _
  have h2 : ("=== " ++ i.title).data
      = '=' :: ("== ".data ++ i.title.data) := data_append_cons rfl _
  exact string_ne_of_head_ne
    (data_append_cons (data_append_cons (data_append_cons (data_append_cons
      (data_append_cons (data_append_cons (data_append_cons
        (data_append_cons h2 _) _) _) _) _) _) _) _)
    (data_append_cons h1 _) (by decide)

/-- C10 — With a non-empty requested id: an empty issue list always yields
the generic `"No issues."` message, and the per-id not-found message is
produced exactly when at least one issue exists and none has the id. -/
theorem C10_review_issues_not_found (d : Dashboard) (issue_id : String)
    (hid : issue_id ≠ "") :
    (d.issues = [] → review_issues d issue_id = "No issues.") ∧
    (review_issues d issue_id = "Issue '" ++ issue_id ++ "' not found" ↔
      d.issues ≠ [] ∧ ∀ i ∈ d.issues, i.id ≠ issue_id) := by
  by_cases hempty : d.issues = []
  · have h : review_issues d issue_id = "No issues." := by
      rw [review_issues, if_pos (List.isEmpty_iff.mpr hempty)]
    refine ⟨fun _ => h, ?_⟩
    rw [h]
    simp [hempty, no_issues_ne_not_found issue_id]
  · have hne : d.issues.isEmpty = false := by
      rcases h : d.issues.isEmpty
      · rfl
      · exact absurd (List.isEmpty_iff.mp h) hempty
    refine ⟨fun h => absurd h hempty, ?_⟩
    rw [review_issues, hne]
    simp only [Bool.false_eq_true, if_false, if_neg hid]
    cases hfind : d.issues.find? fun i => i.id = issue_id with
    | some i =>
      have himem := List.mem_of_find?_eq_some hfind
      have hieq : i.id = issue_id := by
        have h := List.find?_some hfind
        simpa using h
      constructor
      · intro h
        exact absurd h (issueDetail_ne_not_found i issue_id)
      · intro ⟨_, hall⟩
        exact absurd hieq (hall i himem)
    | none =>
      rw [List.find?_eq_none] at hfind
      exact ⟨fun _ => ⟨hempty, fun i hi => fun e => hfind i hi (decide_eq_true e)⟩,
        fun _ => rfl⟩

/-- Closed instance of `C10_review_issues_not_found`. -/
theorem C10_review_issues_not_found_witness :
    (emptyDashboard.issues = [] →
      review_issues emptyDashboard "issue_9" = "No issues.") ∧
    (review_issues emptyDashboard "issue_9"
        = "Issue '" ++ "issue_9" ++ "' not found" ↔
      emptyDashboard.issues ≠ [] ∧
        ∀ i ∈ emptyDashboard.issues, i.id ≠ "issue_9") :=
  C10_review_issues_not_found emptyDashboard "issue_9" (by decide)

/-- C7 — `run_conversation_shell` returns a structured result for every
outcome of the underlying shell: success exactly when initialization and
the handler both return normally (with `success := true` and the rendered
output), a `success := false` record with an error message when the
handler raises, and a `success := false` record with an error message
when initialization raises; being a total function into `ShellResponse`,
it can propagate no exception. -/
theorem C7_dispatch_never_raises (init : Except String Unit)
    (handler : String → Except String String) (command : String) :
    ((run_conversation_shell init handler command).success = true ↔
      init = .ok () ∧ ∃ r, handler command = .ok r) ∧
    (∀ e, init = .ok () → handler command = .error e →
      run_conversation_shell init handler command
        = { success := false,
            error := some ("Error executing command '" ++ command ++ "': " ++ e),
            command := none, rendered_output := none }) ∧
    (∀ r, init = .ok () → handler command = .ok r →
      run_conversation_shell init handler command
        = { success := true, error := none, command := some command,
            rendered_output := some r }) ∧
    ((run_conversation_shell init handler command).success = false →
      (run_conversation_shell init handler command).error.isSome = true) := by
  match init with
  | .error e =>
    refine ⟨?_, ?_, ?_, ?_⟩
    · simp [run_conversation_shell]
    · intro _ h; exact absurd h (by simp)
    · intro _ h; exact absurd h (by simp)
    · intro _; simp [run_conversation_shell]
  | .ok () =>
    match h : handler command with
    | .ok r =>
      refine ⟨?_, ?_, ?_, ?_⟩
      · simp [run_conversation_shell, h]
      · intro e _ he; exact absurd he (by simp)
      · intro r' _ hr
        cases hr
        simp [run_conversation_shell, h]
      · intro hfalse
        rw [show (run_conversation_shell (.ok ()) handler command).success
            = true by simp [run_conversation_shell, h]] at hfalse
        exact absurd hfalse (by simp)
    | .error e =>
      refine ⟨?_, ?_, ?_, ?_⟩
      · simp [run_conversation_shell, h]
      · intro e' _ he
        cases he
        simp [run_conversation_shell, h]
      · intro r _ hr; exact absurd hr (by simp)
      · intro _; simp [run_conversation_shell, h]

/-- Closed instance of `C7_dispatch_never_raises`: a raising handler is
converted to a structured failure. -/
theorem C7_dispatch_never_raises_witness :
    run_conversation_shell (.ok ()) (fun _ => .error "boom") "jump equip"
      = { success := false,
          error := some ("Error executing command '" ++ "jump equip" ++ "': "
            ++ "boom"),
          command := none, rendered_output := none } :=
  (C7_dispatch_never_raises (.ok ()) (fun _ => .error "boom")
    "jump equip").2.1 "boom" rfl rfl

/-! ## Listing recents: the `limit = 0` hazard -/

/-- C9 (amended) — For every positive `limit`, the listings render exactly
the last `min limit length` entries of the respective log (most recent
last), or the none-tracked message when the log is empty; at `limit = 0`
Python's `[-0:]` slice selects the whole log, so the code lists every
entry rather than honoring an empty selection. -/
theorem C9_recents_listing_amended (d : Dashboard) (limit : Nat)
    (hpos : 0 < limit) :
    recently_made_listing d limit
        = (if (d.recently_made.drop (d.recently_made.length - limit)).isEmpty
           then "No recently made skills tracked."
           else "=== Recently Made ===\n" ++
             recentLines (d.recently_made.drop
               (d.recently_made.length - limit))) ∧
    recently_equipped_listing d limit
        = (if (d.recently_equipped.drop
              (d.recently_equipped.length - limit)).isEmpty
           then "No recently equipped items tracked."
           else "=== Recently Equipped ===\n" ++
             recentLines (d.recently_equipped.drop
               (d.recently_equipped.length - limit))) ∧
    (d.recently_made.drop (d.recently_made.length - limit)).length
        = min limit d.recently_made.length := by
  have hslice : ∀ xs : List Entry,
      pyTakeLastSlice limit xs = xs.drop (xs.length - limit) := by
    intro xs
    unfold pyTakeLastSlice
    rw [if_neg (by omega)]
  refine ⟨?_, ?_, ?_⟩
  · rw [recently_made_listing, hslice]
  · rw [recently_equipped_listing, hslice]
  · rw [List.length_drop]; omega

/-- Closed instance of `C9_recents_listing_amended` at `limit = 1`. -/
theorem C9_recents_listing_amended_witness :
    recently_made_listing emptyDashboard 1
        = (if (emptyDashboard.recently_made.drop
              (emptyDashboard.recently_made.length - 1)).isEmpty
           then "No recently made skills tracked."
           else "=== Recently Made ===\n" ++
             recentLines (emptyDashboard.recently_made.drop
               (emptyDashboard.recently_made.length - 1))) ∧
    recently_equipped_listing emptyDashboard 1
        = (if (emptyDashboard.recently_equipped.drop
              (emptyDashboard.recently_equipped.length - 1)).isEmpty
           then "No recently equipped items tracked."
           else "=== Recently Equipped ===\n" ++
             recentLines (emptyDashboard.recently_equipped.drop
               (emptyDashboard.recently_equipped.length - 1))) ∧
    (emptyDashboard.recently_made.drop
        (emptyDashboard.recently_made.length - 1)).length
        = min 1 emptyDashboard.recently_made.length :=
  C9_recents_listing_amended emptyDashboard 1 (by decide)

/-- A dashboard whose `recently_made` log has exactly one record. -/
def oneEntryDashboard : Dashboard :=
  { emptyDashboard with recently_made := [⟨"alpha", "t0"⟩] }

/-- C9 (counterexample) — At `limit = 0` the claim's selection ("the last
0 entries") is empty, so the claim requires the none-tracked message, but
the code returns the full listing of the log. -/
theorem C9_zero_limit_counterexample :
    List.drop (oneEntryDashboard.recently_made.length - 0)
        oneEntryDashboard.recently_made = [] ∧
    recently_made_listing oneEntryDashboard 0
        = "=== Recently Made ===\n  - alpha (t0)" ∧
    recently_made_listing oneEntryDashboard 0
        ≠ "No recently made skills tracked." := by
  refine ⟨rfl, ?_, ?_⟩
  · rfl
  · decide

/-! ## The store: load behavior on absent, valid, and corrupt content -/

/-- C5 (amended) — With an absent backing file, `_load_dashboard` returns
the zero-value document, which carries all five top-level keys as empty
containers, and does not write; with a present file it returns exactly the
parsed content (so a loaded document carries the five keys only when the
stored bytes do). -/
theorem C5_load_default_amended :
    load_dashboard none = (.ok defaultDashboardJson, none) ∧
    (∀ k ∈ ["favorite_skills", "favorite_personas", "recently_made",
        "recently_equipped", "issues"],
      jsonHasKey defaultDashboardJson k = true) ∧
    expectedShape defaultDashboardJson = true ∧
    (∀ s v, loads s = some v → load_dashboard (some s) = (.ok v, some s)) := by
  refine ⟨rfl, by decide, by decide, ?_⟩
  intro s v h
  rw [load_dashboard, h]

/-- Closed instance of `C5_load_default_amended`'s present-file clause. -/
theorem C5_load_default_amended_witness :
    load_dashboard (some "\x7b\x7d") = (.ok (.obj []), some "\x7b\x7d") :=
  (C5_load_default_amended).2.2.2 "\x7b\x7d" (.obj []) rfl

/-- C5 (counterexample) — A stored empty object is accepted by
`_load_dashboard` and returned as is, with none of the five top-level
keys: the claim's "every document load() returns has all five keys" fails
for present files. -/
theorem C5_missing_keys_counterexample :
    load_dashboard (some "\x7b\x7d") = (.ok (.obj []), some "\x7b\x7d") ∧
    jsonHasKey (.obj []) "favorite_skills" = false ∧
    jsonHasKey (.obj []) "favorite_personas" = false ∧
    jsonHasKey (.obj []) "recently_made" = false ∧
    jsonHasKey (.obj []) "recently_equipped" = false ∧
    jsonHasKey (.obj []) "issues" = false :=
  ⟨rfl, rfl, rfl, rfl, rfl, rfl⟩

/-- C6 (amended) — `_load_dashboard` on a present file fails exactly when
`json.loads` fails (raising `json.JSONDecodeError`; the module defines no
`CorruptStateError`), and in every outcome leaves the backing file
untouched; syntactically valid content is returned without any shape
check. -/
theorem C6_load_corrupt_amended (s : String) :
    (loads s = none →
      load_dashboard (some s) = (.error .jsonDecodeError, some s)) ∧
    (∀ v, loads s = some v → load_dashboard (some s) = (.ok v, some s)) ∧
    (load_dashboard (some s)).2 = some s := by
  refine ⟨fun h => by rw [load_dashboard, h], fun v h => by rw [load_dashboard, h], ?_⟩
  rw [load_dashboard]
  cases loads s <;> rfl

/-- Closed instance of `C6_load_corrupt_amended` on unparseable bytes. -/
theorem C6_load_corrupt_amended_witness :
    load_dashboard (some "not json")
        = (.error .jsonDecodeError, some "not json") :=
  (C6_load_corrupt_amended "not json").1 rfl

/-- C6 (counterexample) — `"[1, 2, 3]"` is not a document of the expected
shape, yet `_load_dashboard` returns it without raising: the failure the
claim mandates for shape-invalid content does not occur. -/
theorem C6_wrong_shape_counterexample :
    loads "[1, 2, 3]" = some (.arr [.int 1, .int 2, .int 3]) ∧
    expectedShape (.arr [.int 1, .int 2, .int 3]) = false ∧
    load_dashboard (some "[1, 2, 3]")
        = (.ok (.arr [.int 1, .int 2, .int 3]), some "[1, 2, 3]") :=
  ⟨rfl, rfl, rfl⟩

/-! ## `save(load())` at the byte level -/

/-- A compact (whitespace-free) serialization of the zero-value dashboard
document: valid content a `json.loads`-based load accepts. -/
def compactDashboardText : String :=
  "\x7b\"favorite_skills\":\x7b\x7d,\"favorite_personas\":[],\"recently_made\":[],\"recently_equipped\":[],\"issues\":[]\x7d"

/-- The canonical `indent=2` serialization of the zero-value document. -/
def prettyDashboardText : String :=
  "\x7b\n  \"favorite_skills\": \x7b\x7d,\n  \"favorite_personas\": [],\n  \"recently_made\": [],\n  \"recently_equipped\": [],\n  \"issues\": []\n\x7d"

/-- C4 (counterexample) — the compact document text is accepted by load
(it even has the expected shape), but `save(load())` rewrites the file
with the `indent=2` form, changing the serialized bytes. -/
theorem C4_roundtrip_counterexample :
    loads compactDashboardText = some defaultDashboardJson ∧
    expectedShape defaultDashboardJson = true ∧
    saveAfterLoad compactDashboardText = some prettyDashboardText ∧
    saveAfterLoad compactDashboardText ≠ some compactDashboardText := by
  have hload : loads compactDashboardText = some defaultDashboardJson := by rfl
  have hdumps : dumps defaultDashboardJson = prettyDashboardText := by
    simp only [dumps, defaultDashboardJson, renderJson, renderMembers,
      quoteStr, escapeChar, indentChars, lbrace, rbrace]
    rfl
  have hsal : saveAfterLoad compactDashboardText = some prettyDashboardText := by
    rw [saveAfterLoad, hload, Option.map_some', hdumps]
  refine ⟨hload, by decide, hsal, ?_⟩
  rw [hsal]
  intro h
  have : prettyDashboardText = compactDashboardText := Option.some.inj h
  exact absurd this (by decide)

/-! ## Round-trip: `loads (dumps v) = some v`

The amended C4 property: the canonical `indent=2` serialization parses
back to the serialized value, so `save(load())` is the identity on the
bytes `save` itself produces.  The development below proves
`parseValue`/`parseElems`/`parseMembers` correct on rendered output, by
strong induction on the size of the value. -/

/-- Two characters on which some Boolean character predicate disagrees are
distinct. -/
theorem char_ne_of_pred {p : Char → Bool} {c d : Char} (hc : p c = true)
    (hd : p d = false) : c ≠ d := by
  intro h
  rw [h, hd] at hc
  exact Bool.noConfusion hc

theorem isWs_of_eq_true {c : Char} (h : isWs c = true) :
    c = ' ' ∨ c = '\t' ∨ c = '\n' ∨ c = '\r' := by
  have h' : ((c = ' ' ∨ c = '\t') ∨ c = '\n') ∨ c = '\r' := by
    simpa [isWs] using h
  tauto

theorem not_digit_of_ws {c : Char} (h : isWs c = true) :
    charIsDigit c = false := by
  rcases isWs_of_eq_true h with rfl | rfl | rfl | rfl <;> decide

theorem skipWs_cons_of_ws {c : Char} (h : isWs c = true) (cs : List Char) :
    skipWs (c :: cs) = skipWs cs := by
  simp [skipWs, h]

theorem skipWs_cons_of_not_ws {c : Char} (h : isWs c = false)
    (cs : List Char) : skipWs (c :: cs) = c :: cs := by
  simp [skipWs, h]

theorem skipWs_append_of_ws (ws cs : List Char)
    (h : ∀ x ∈ ws, isWs x = true) : skipWs (ws ++ cs) = skipWs cs := by
  induction ws with
  | nil => rfl
  | cons w t ih =>
    rw [List.cons_append, skipWs_cons_of_ws (h w (List.mem_cons_self ..))]
    exact ih fun x hx => h x (List.mem_cons_of_mem _ hx)

theorem indentChars_ws (d : Nat) : ∀ c ∈ indentChars d, isWs c = true := by
  intro c hc
  rw [indentChars] at hc
  rw [List.eq_of_mem_replicate hc]
  rfl

/-- Reading back a hex digit recovers the value it encodes. -/
theorem hexVal_hexDigit : ∀ k < 16, hexVal (hexDigit k) = some k := by
  decide

theorem charIsDigit_ofNat {k : Nat} (h : k < 10) :
    charIsDigit (Char.ofNat (48 + k)) = true := by
  interval_cases k <;> decide

theorem toNat_ofNat_digit {k : Nat} (h : k < 10) :
    (Char.ofNat (48 + k)).toNat = 48 + k := by
  interval_cases k <;> decide

/-- Heads of inputs the number reader must not consume. -/
def noDigitHead : List Char → Prop
  | [] => True
  | c :: _ => charIsDigit c = false

theorem digitsToNat_append (ds es : List Char) :
    ∀ acc, digitsToNat acc (ds ++ es) = digitsToNat (digitsToNat acc ds) es := by
  induction ds with
  | nil => intro acc; rfl
  | cons c t ih => intro acc; rw [List.cons_append]; exact ih _

theorem natDigits_all_digit :
    ∀ n, ∀ c ∈ natDigits n, charIsDigit c = true := by
  intro n
  induction n using Nat.strong_induction_on with
  | _ n ih =>
    intro c hc
    rw [natDigits] at hc
    by_cases h : n < 10
    · rw [dif_pos h] at hc
      rw [List.mem_singleton.mp hc]
      exact charIsDigit_ofNat h
    · rw [dif_neg h] at hc
      rcases List.mem_append.mp hc with h1 | h1
      · exact ih (n / 10) (Nat.div_lt_self (by omega) (by omega)) c h1
      · rw [List.mem_singleton.mp h1]
        exact charIsDigit_ofNat (Nat.mod_lt _ (by omega))

theorem natDigits_head :
    ∀ n, 1 ≤ n → ∃ c t, natDigits n = c :: t ∧ charIsDigit c = true ∧
      c ≠ '0' := by
  intro n
  induction n using Nat.strong_induction_on with
  | _ n ih =>
    intro hn
    rw [natDigits]
    by_cases h : n < 10
    · refine ⟨Char.ofNat (48 + n), [], by rw [dif_pos h], charIsDigit_ofNat h, ?_⟩
      intro e
      have he := congrArg Char.toNat e
      rw [toNat_ofNat_digit h, show '0'.toNat = 48 from rfl] at he
      omega
    · obtain ⟨c, t, he, hd, hz⟩ :=
        ih (n / 10) (Nat.div_lt_self (by omega) (by omega)) (by omega)
      exact ⟨c, t ++ [Char.ofNat (48 + n % 10)], by rw [dif_neg h, he]; rfl,
        hd, hz⟩

theorem digitsToNat_natDigits :
    ∀ n acc, digitsToNat acc (natDigits n)
      = acc * 10 ^ (natDigits n).length + n := by
  intro n
  induction n using Nat.strong_induction_on with
  | _ n ih =>
    intro acc
    by_cases h : n < 10
    · obtain ⟨c, hc, he⟩ : ∃ c, c.toNat = 48 + n ∧ natDigits n = [c] :=
        ⟨_, toNat_ofNat_digit h, by rw [natDigits, dif_pos h]⟩
      rw [he]
      simp only [digitsToNat_cons, digitsToNat_nil, List.length_singleton, pow_one, hc]
      omega
    · obtain ⟨c, hc, he⟩ : ∃ c, c.toNat = 48 + n % 10 ∧
          natDigits n = natDigits (n / 10) ++ [c] := by
        refine ⟨_, toNat_ofNat_digit (Nat.mod_lt _ (by omega)), ?_⟩
        conv_lhs => rw [natDigits]
        rw [dif_neg h]
      rw [he, digitsToNat_append,
        ih (n / 10) (Nat.div_lt_self (by omega) (by omega)) acc]
      simp only [digitsToNat_cons, digitsToNat_nil, List.length_append, List.length_singleton, hc]
      rw [pow_succ]
      have e1 : 48 + n % 10 - 48 = n % 10 := by omega
      rw [e1]
      calc (acc * 10 ^ (natDigits (n / 10)).length + n / 10) * 10 + n % 10
          = acc * (10 ^ (natDigits (n / 10)).length * 10) +
              (n / 10 * 10 + n % 10) := by ring
        _ = acc * (10 ^ (natDigits (n / 10)).length * 10) + n := by
              congr 1
              omega

theorem takeDigits_append :
    ∀ ds rest, (∀ c ∈ ds, charIsDigit c = true) → noDigitHead rest →
      takeDigits (ds ++ rest) = (ds, rest) := by
  intro ds
  induction ds with
  | nil =>
    intro rest _ hrest
    cases rest with
    | nil => rfl
    | cons c t =>
      have hc : charIsDigit c = false := hrest
      simp [takeDigits, hc]
  | cons d t ih =>
    intro rest hall hrest
    rw [List.cons_append, takeDigits,
      if_pos (hall d (List.mem_cons_self ..)),
      ih rest (fun c hc => hall c (List.mem_cons_of_mem _ hc)) hrest]

theorem ws_of_digit {c : Char} (h : charIsDigit c = true) : isWs c = false := by
  cases hw : isWs c
  · rfl
  · rw [not_digit_of_ws hw] at h
    exact Bool.noConfusion h

theorem wfJson_arr_cons {e : Json} {es : List Json}
    (h : wfJson (.arr (e :: es)) = true) :
    wfJson e = true ∧ wfJson (.arr es) = true := by
  rw [wfJson] at h
  exact Bool.and_eq_true_iff.mp h

theorem wfJson_obj_cons {k : String} {v : Json} {ms : List (String × Json)}
    (h : wfJson (.obj ((k, v) :: ms)) = true) :
    wfStr k = true ∧ wfJson v = true ∧
      (ms.any fun p => p.1 = k) = false ∧ wfJson (.obj ms) = true := by
  rw [wfJson] at h
  have h1 := Bool.and_eq_true_iff.mp h
  have h2 := Bool.and_eq_true_iff.mp h1.1
  have h3 := Bool.and_eq_true_iff.mp h2.1
  exact ⟨h3.1, h3.2, by simpa using h2.2, h1.2⟩

theorem foldl_insertPair (l : List (String × Json)) :
    ∀ acc, (∀ p ∈ acc, ∀ q ∈ l, p.1 ≠ q.1) → wfJson (.obj l) = true →
      l.foldl (fun acc p => insertPair acc p.1 p.2) acc = acc ++ l := by
  induction l with
  | nil => intro acc _ _; simp
  | cons m t ih =>
    intro acc hdisj hwf
    obtain ⟨k, v⟩ := m
    obtain ⟨_, _, hany, hwt⟩ := wfJson_obj_cons hwf
    have hstep : insertPair acc k v = acc ++ [(k, v)] := by
      rw [insertPair, if_neg]
      intro hc
      obtain ⟨p, hp, hpk⟩ := List.any_eq_true.mp hc
      exact hdisj p hp (k, v) (List.mem_cons_self ..) (by simpa using hpk)
    rw [List.foldl_cons]
    show List.foldl _ (insertPair acc k v) t = _
    rw [hstep, ih (acc ++ [(k, v)]) ?_ hwt]
    · rw [List.append_assoc]
      rfl
    · intro p hp q hq
      rcases List.mem_append.mp hp with hp | hp
      · exact hdisj p hp q (List.mem_cons_of_mem _ hq)
      · rw [List.mem_singleton.mp hp]
        have := List.any_eq_false.mp hany q hq
        intro e
        exact this (by simpa using e.symm)

/-- Under distinct keys (every Python dict), re-inserting the parsed pairs
is the identity. -/
theorem dedupPairs_of_wf (ms : List (String × Json))
    (h : wfJson (.obj ms) = true) : dedupPairs ms = ms := by
  rw [dedupPairs, foldl_insertPair ms [] (by simp) h, List.nil_append]

theorem char_ne_of_toNat_eq {c : Char} {n : Nat} (h : c.toNat = n) {d : Char}
    (hd : d.toNat ≠ n) : c ≠ d := fun e => hd (e ▸ h)

theorem natDigits_cons (n : Nat) :
    ∃ c t, natDigits n = c :: t ∧ charIsDigit c = true := by
  by_cases h0 : n = 0
  · subst h0
    exact ⟨'0', [], by rw [natDigits]; rfl, by decide⟩
  · obtain ⟨c, t, he, hd, _⟩ := natDigits_head n (by omega)
    exact ⟨c, t, he, hd⟩

/-- Every rendered value starts with a character that is not whitespace
and not a closing bracket. -/
theorem renderJson_head (v : Json) (d : Nat) :
    ∃ c t, renderJson v d = c :: t ∧ isWs c = false ∧ c ≠ ']' := by
  cases v with
  | null => exact ⟨'n', _, rfl, by decide, by decide⟩
  | bool b => cases b with
    | true => exact ⟨'t', _, rfl, by decide, by decide⟩
    | false => exact ⟨'f', _, rfl, by decide, by decide⟩
  | int n =>
    show ∃ c t, intChars n = c :: t ∧ _
    rw [intChars]
    by_cases hn : n < 0
    · rw [if_pos hn]
      exact ⟨'-', _, rfl, by decide, by decide⟩
    · rw [if_neg hn]
      obtain ⟨c, t, he, hd⟩ := natDigits_cons n.natAbs
      exact ⟨c, t, he, ws_of_digit hd,
        char_ne_of_pred hd (by decide : charIsDigit ']' = false)⟩
  | str s => exact ⟨'"', _, rfl, by decide, by decide⟩
  | arr es => cases es with
    | nil => exact ⟨'[', _, rfl, by decide, by decide⟩
    | cons e es => exact ⟨'[', _, rfl, by decide, by decide⟩
  | obj ms => cases ms with
    | nil => exact ⟨lbrace, _, rfl, by decide, by decide⟩
    | cons m ms => exact ⟨lbrace, _, rfl, by decide, by decide⟩

theorem json_sizeOf_pos (v : Json) : 1 ≤ sizeOf v := by
  cases v <;> simp_arith

theorem renderJson_null (d : Nat) : renderJson .null d = ['n', 'u', 'l', 'l'] :=
  rfl

theorem renderJson_true (d : Nat) :
    renderJson (.bool true) d = ['t', 'r', 'u', 'e'] := rfl

theorem renderJson_false (d : Nat) :
    renderJson (.bool false) d = ['f', 'a', 'l', 's', 'e'] := rfl

theorem renderJson_int (n : Int) (d : Nat) :
    renderJson (.int n) d = intChars n := rfl

theorem renderJson_str (s : String) (d : Nat) :
    renderJson (.str s) d = quoteStr s := rfl

theorem renderJson_arr_nil (d : Nat) : renderJson (.arr []) d = ['[', ']'] :=
  rfl

theorem renderJson_arr_cons (e : Json) (es : List Json) (d : Nat) :
    renderJson (.arr (e :: es)) d
      = '[' :: '\n' :: (indentChars (d + 1) ++ renderJson e (d + 1) ++
          renderElems es (d + 1) ++ '\n' :: indentChars d ++ [']']) := rfl

theorem renderJson_obj_nil (d : Nat) :
    renderJson (.obj []) d = [lbrace, rbrace] := rfl

theorem renderJson_obj_cons (m : String × Json) (ms : List (String × Json))
    (d : Nat) :
    renderJson (.obj (m :: ms)) d
      = lbrace :: '\n' :: (indentChars (d + 1) ++ quoteStr m.1 ++
          ':' :: ' ' :: renderJson m.2 (d + 1) ++
          renderMembers ms (d + 1) ++ '\n' :: indentChars d ++ [rbrace]) := rfl

theorem renderElems_nil (d : Nat) : renderElems [] d = [] := rfl

theorem renderElems_cons (e : Json) (es : List Json) (d : Nat) :
    renderElems (e :: es) d
      = ',' :: '\n' :: (indentChars d ++ renderJson e d ++ renderElems es d) :=
  rfl

theorem renderMembers_nil (d : Nat) : renderMembers [] d = [] := rfl

theorem renderMembers_cons (m : String × Json) (ms : List (String × Json))
    (d : Nat) :
    renderMembers (m :: ms) d
      = ',' :: '\n' :: (indentChars d ++ quoteStr m.1 ++
          ':' :: ' ' :: renderJson m.2 d ++ renderMembers ms d) := rfl

theorem ofNatAux_eq_ofNat (n : Nat) (h : n.isValidChar) :
    Char.ofNatAux n h = Char.ofNat n := by
  unfold Char.ofNat
  rw [dif_pos h]

/-- Decoding one escaped character: `parseStringBody` undoes `escapeChar`
for every basic-plane scalar. -/
theorem parseStringBody_escapeChar (c : Char) (hc : c.toNat < 65536)
    (tail : List Char) :
    parseStringBody (escapeChar c ++ tail)
      = (parseStringBody tail).map fun p => (c :: p.1, p.2) := by
  by_cases h1 : c = '"'
  · subst h1
    rw [show escapeChar '"' = ['\\', '"'] from rfl]
    conv_lhs => rw [parseStringBody.eq_def]
    simp
  by_cases h2 : c = '\\'
  · subst h2
    rw [show escapeChar '\\' = ['\\', '\\'] from rfl]
    conv_lhs => rw [parseStringBody.eq_def]
    simp
  by_cases h3 : c = '\n'
  · subst h3
    rw [show escapeChar '\n' = ['\\', 'n'] from rfl]
    conv_lhs => rw [parseStringBody.eq_def]
    simp
  by_cases h4 : c = '\t'
  · subst h4
    rw [show escapeChar '\t' = ['\\', 't'] from rfl]
    conv_lhs => rw [parseStringBody.eq_def]
    simp
  by_cases h5 : c = '\r'
  · subst h5
    rw [show escapeChar '\r' = ['\\', 'r'] from rfl]
    conv_lhs => rw [parseStringBody.eq_def]
    simp
  by_cases h6 : c.toNat = 8
  · have he : escapeChar c = ['\\', 'b'] := by
      rw [escapeChar, if_neg h1, if_neg h2, if_neg h3, if_neg h4, if_neg h5,
        if_pos h6]
    have hcb : Char.ofNat 8 = c := by rw [← h6, Char.ofNat_toNat]
    rw [he]
    conv_lhs => rw [parseStringBody.eq_def]
    simp
    rw [hcb]
  by_cases h7 : c.toNat = 12
  · have he : escapeChar c = ['\\', 'f'] := by
      rw [escapeChar, if_neg h1, if_neg h2, if_neg h3, if_neg h4, if_neg h5,
        if_neg h6, if_pos h7]
    have hcb : Char.ofNat 12 = c := by rw [← h7, Char.ofNat_toNat]
    rw [he]
    conv_lhs => rw [parseStringBody.eq_def]
    simp
    rw [hcb]
  by_cases h8 : 32 ≤ c.toNat ∧ c.toNat ≤ 126
  · have he : escapeChar c = [c] := by
      rw [escapeChar, if_neg h1, if_neg h2, if_neg h3, if_neg h4, if_neg h5,
        if_neg h6, if_neg h7, if_pos h8]
    have hlt : ¬(c.toNat < 32) := by omega
    rw [he]
    conv_lhs => rw [parseStringBody.eq_def]
    simp [h1, h2, hlt]
  · have he : escapeChar c = '\\' :: 'u' :: hex4 c.toNat := by
      rw [escapeChar, if_neg h1, if_neg h2, if_neg h3, if_neg h4, if_neg h5,
        if_neg h6, if_neg h7, if_neg h8, if_pos hc]
    have e1 : hexVal (hexDigit (c.toNat / 4096)) = some (c.toNat / 4096) :=
      hexVal_hexDigit _ (by omega)
    have e2 : hexVal (hexDigit (c.toNat / 256 % 16)) = some (c.toNat / 256 % 16) :=
      hexVal_hexDigit _ (by omega)
    have e3 : hexVal (hexDigit (c.toNat / 16 % 16)) = some (c.toNat / 16 % 16) :=
      hexVal_hexDigit _ (by omega)
    have e4 : hexVal (hexDigit (c.toNat % 16)) = some (c.toNat % 16) :=
      hexVal_hexDigit _ (by omega)
    have hn : c.toNat / 4096 * 4096 + c.toNat / 256 % 16 * 256 +
        c.toNat / 16 % 16 * 16 + c.toNat % 16 = c.toNat := by omega
    have hv : c.toNat < 55296 ∨ (57344 ≤ c.toNat ∧ c.toNat < 1114112) := c.valid
    rw [he]
    conv_lhs => rw [parseStringBody.eq_def]
    simp only [hex4, List.cons_append, List.nil_append]
    simp only [e1, e2, e3, e4]
    simp only [hn]
    simp
    rcases hv with hv | hv
    · rw [dif_pos hv, ofNatAux_eq_ofNat, Char.ofNat_toNat]
    · rw [dif_neg (by omega), dif_pos ⟨hv.1, hv.2⟩, ofNatAux_eq_ofNat,
        Char.ofNat_toNat]

/-- Reading back an escaped string body up to its closing quote. -/
theorem parseStringBody_escape (l : List Char)
    (hwf : ∀ c ∈ l, c.toNat < 65536) (rest : List Char) :
    parseStringBody (l.flatMap escapeChar ++ '"' :: rest) = some (l, rest) := by
  induction l with
  | nil =>
    show parseStringBody ('"' :: rest) = some ([], rest)
    conv_lhs => rw [parseStringBody.eq_def]
    simp
  | cons c l ih =>
    rw [List.flatMap_cons, List.append_assoc,
      parseStringBody_escapeChar c (hwf c (List.mem_cons_self ..)),
      ih fun x hx => hwf x (List.mem_cons_of_mem _ hx)]
    rfl

theorem parseNat_natDigits (n : Nat) (rest : List Char)
    (hrest : noDigitHead rest) :
    parseNat (natDigits n ++ rest) = some (n, rest) := by
  by_cases h0 : n = 0
  · subst h0
    have hd : natDigits 0 = ['0'] := by rw [natDigits]; rfl
    rw [hd]
    simp [parseNat]
  · obtain ⟨c, t, he, hdig, hz⟩ := natDigits_head n (by omega)
    have hval : digitsToNat 0 (natDigits n) = n := by
      rw [digitsToNat_natDigits]
      omega
    rw [he] at hval
    simp only [digitsToNat_cons, Nat.zero_mul, Nat.zero_add] at hval
    rw [he, List.cons_append, parseNat, if_neg hz, if_pos hdig,
      takeDigits_append t rest
        (fun c hc => natDigits_all_digit n c (he ▸ List.mem_cons_of_mem _ hc))
        hrest]
    show some (digitsToNat (c.toNat - 48) t, rest) = some (n, rest)
    rw [hval]

theorem parseValue_cons (F : Nat) (c : Char) (r : List Char) :
    parseValue (F + 1) (c :: r)
      = (if c = 'n' then
          (stripChars ['u', 'l', 'l'] r).map fun r' => (.null, r')
        else if c = 't' then
          (stripChars ['r', 'u', 'e'] r).map fun r' => (.bool true, r')
        else if c = 'f' then
          (stripChars ['a', 'l', 's', 'e'] r).map fun r' => (.bool false, r')
        else if c = '"' then
          (parseStringBody r).map fun p => (.str (String.mk p.1), p.2)
        else if c = '-' then
          (parseNat r).map fun p => (.int (-(p.1 : Int)), p.2)
        else if c = '[' then
          match skipWs r with
          | [] => none
          | x :: r' =>
            if x = ']' then some (.arr [], r')
            else (parseElems F (x :: r')).map fun p => (.arr p.1, p.2)
        else if c = lbrace then
          match skipWs r with
          | [] => none
          | x :: r' =>
            if x = rbrace then some (.obj [], r')
            else (parseMembers F (x :: r')).map fun p =>
              (.obj (dedupPairs p.1), p.2)
        else if charIsDigit c then
          (parseNat (c :: r)).map fun p => (.int (p.1 : Int), p.2)
        else none) := rfl

theorem parseElems_succ (F : Nat) (cs : List Char) :
    parseElems (F + 1) cs
      = (match parseValue F cs with
        | none => none
        | some (v, r) =>
          match skipWs r with
          | [] => none
          | x :: r' =>
            if x = ',' then
              match parseElems F (skipWs r') with
              | none => none
              | some (es, r'') => some (v :: es, r'')
            else if x = ']' then some ([v], r')
            else none) := rfl

theorem parseMembers_cons (F : Nat) (c : Char) (r : List Char) :
    parseMembers (F + 1) (c :: r)
      = (if c = '"' then
          match parseStringBody r with
          | none => none
          | some (k, r1) =>
            match skipWs r1 with
            | [] => none
            | x :: r2 =>
              if x = ':' then
                match parseValue F (skipWs r2) with
                | none => none
                | some (v, r3) =>
                  match skipWs r3 with
                  | [] => none
                  | y :: r4 =>
                    if y = ',' then
                      match parseMembers F (skipWs r4) with
                      | none => none
                      | some (ms, r5) => some ((String.mk k, v) :: ms, r5)
                    else if y = rbrace then some ([(String.mk k, v)], r4)
                    else none
              else none
        else none) := rfl

theorem parseValue_arr_nil_step (F : Nat) (r r' : List Char)
    (hskip : skipWs r = ']' :: r') :
    parseValue (F + 1) ('[' :: r) = some (.arr [], r') := by
  rw [parseValue_cons]
  simp [hskip]

theorem parseValue_arr_step (F : Nat) (r : List Char) (x : Char)
    (r' : List Char) (hskip : skipWs r = x :: r') (hx : ¬x = ']') :
    parseValue (F + 1) ('[' :: r)
      = (parseElems F (x :: r')).map fun p => (.arr p.1, p.2) := by
  rw [parseValue_cons]
  simp [hskip, hx]

theorem parseValue_obj_nil_step (F : Nat) (r r' : List Char)
    (hskip : skipWs r = rbrace :: r') :
    parseValue (F + 1) (lbrace :: r) = some (.obj [], r') := by
  rw [parseValue_cons]
  simp [hskip, lbrace, rbrace]

theorem parseValue_obj_step (F : Nat) (r : List Char) (x : Char)
    (r' : List Char) (hskip : skipWs r = x :: r') (hx : ¬x = rbrace) :
    parseValue (F + 1) (lbrace :: r)
      = (parseMembers F (x :: r')).map fun p => (.obj (dedupPairs p.1), p.2) := by
  rw [parseValue_cons]
  simp only [lbrace, rbrace] at hx ⊢
  simp [hskip, hx]

theorem parseElems_last_step (F : Nat) (cs : List Char) (v : Json)
    (r r' : List Char) (hval : parseValue F cs = some (v, r))
    (hskip : skipWs r = ']' :: r') :
    parseElems (F + 1) cs = some ([v], r') := by
  rw [parseElems_succ]
  simp [hval, hskip]

theorem parseElems_more_step (F : Nat) (cs : List Char) (v : Json)
    (r r' : List Char) (es : List Json) (r'' : List Char)
    (hval : parseValue F cs = some (v, r))
    (hskip : skipWs r = ',' :: r')
    (hrec : parseElems F (skipWs r') = some (es, r'')) :
    parseElems (F + 1) cs = some (v :: es, r'') := by
  rw [parseElems_succ]
  simp [hval, hskip, hrec]

theorem parseMembers_last_step (F : Nat) (r : List Char) (k : List Char)
    (r1 r2 : List Char) (v : Json) (r3 r4 : List Char)
    (hkey : parseStringBody r = some (k, r1))
    (hcolon : skipWs r1 = ':' :: r2)
    (hval : parseValue F (skipWs r2) = some (v, r3))
    (hclose : skipWs r3 = rbrace :: r4) :
    parseMembers (F + 1) ('"' :: r) = some ([(String.mk k, v)], r4) := by
  rw [parseMembers_cons]
  simp only [rbrace] at hclose ⊢
  simp [hkey, hcolon, hval, hclose]

theorem parseMembers_more_step (F : Nat) (r : List Char) (k : List Char)
    (r1 r2 : List Char) (v : Json) (r3 r4 : List Char)
    (ms : List (String × Json)) (r5 : List Char)
    (hkey : parseStringBody r = some (k, r1))
    (hcolon : skipWs r1 = ':' :: r2)
    (hval : parseValue F (skipWs r2) = some (v, r3))
    (hcomma : skipWs r3 = ',' :: r4)
    (hrec : parseMembers F (skipWs r4) = some (ms, r5)) :
    parseMembers (F + 1) ('"' :: r) = some ((String.mk k, v) :: ms, r5) := by
  rw [parseMembers_cons]
  simp [hkey, hcolon, hval, hcomma, hrec]

/-- Parser correctness on rendered output: one rendered value (with any
non-digit continuation), the element list of a non-empty array, and the
member list of a non-empty object are each read back exactly, given fuel
at least twice the rendered length. -/
theorem parse_render_all : ∀ N : Nat,
    (∀ v : Json, sizeOf v ≤ N → wfJson v = true →
      ∀ (d : Nat) (rest : List Char), noDigitHead rest →
        ∀ fuel : Nat, 2 * (renderJson v d).length ≤ fuel →
          parseValue fuel (renderJson v d ++ rest) = some (v, rest)) ∧
    (∀ (e : Json) (es : List Json), sizeOf e + sizeOf es ≤ N →
      wfJson e = true → wfJson (.arr es) = true →
      ∀ (d : Nat) (ws rest : List Char), (∀ c ∈ ws, isWs c = true) →
        ∀ fuel : Nat,
          2 * ((renderJson e d).length + (renderElems es d).length) + 1 ≤ fuel →
          parseElems fuel
              (renderJson e d ++ (renderElems es d ++ (ws ++ ']' :: rest)))
            = some (e :: es, rest)) ∧
    (∀ (k : String) (v : Json) (ms : List (String × Json)),
      sizeOf v + sizeOf ms ≤ N → wfStr k = true → wfJson v = true →
      wfJson (.obj ms) = true →
      ∀ (d : Nat) (ws rest : List Char), (∀ c ∈ ws, isWs c = true) →
        ∀ fuel : Nat,
          2 * ((quoteStr k).length + 2 + (renderJson v d).length +
              (renderMembers ms d).length) + 1 ≤ fuel →
          parseMembers fuel
              (quoteStr k ++ ':' :: ' ' :: (renderJson v d ++
                (renderMembers ms d ++ (ws ++ rbrace :: rest))))
            = some ((k, v) :: ms, rest)) := by
  intro N
  induction N using Nat.strong_induction_on with
  | _ N ih =>
    refine ⟨?_, ?_, ?_⟩
    · -- one value
      intro v hsz hwf d rest hrest fuel hfuel
      cases v with
      | null =>
        rw [renderJson_null] at hfuel ⊢
        simp only [List.length_cons, List.length_nil] at hfuel
        obtain ⟨F, rfl⟩ : ∃ F, fuel = F + 1 := ⟨fuel - 1, by omega⟩
        conv_lhs => rw [parseValue.eq_def]
        simp [stripChars]
      | bool b =>
        cases b with
        | true =>
          rw [renderJson_true] at hfuel ⊢
          simp only [List.length_cons, List.length_nil] at hfuel
          obtain ⟨F, rfl⟩ : ∃ F, fuel = F + 1 := ⟨fuel - 1, by omega⟩
          conv_lhs => rw [parseValue.eq_def]
          simp [stripChars]
        | false =>
          rw [renderJson_false] at hfuel ⊢
          simp only [List.length_cons, List.length_nil] at hfuel
          obtain ⟨F, rfl⟩ : ∃ F, fuel = F + 1 := ⟨fuel - 1, by omega⟩
          conv_lhs => rw [parseValue.eq_def]
          simp [stripChars]
      | int n =>
        rw [renderJson_int] at hfuel ⊢
        by_cases hn : n < 0
        · rw [intChars, if_pos hn] at hfuel ⊢
          simp only [List.length_cons] at hfuel
          obtain ⟨F, rfl⟩ : ∃ F, fuel = F + 1 := ⟨fuel - 1, by omega⟩
          conv_lhs => rw [parseValue.eq_def]
          simp only [List.cons_append]
          simp
          exact ⟨n.natAbs, parseNat_natDigits _ rest hrest, by omega⟩
        · rw [intChars, if_neg hn] at hfuel ⊢
          obtain ⟨c, t, he, hd⟩ := natDigits_cons n.natAbs
          rw [he] at hfuel ⊢
          simp only [List.length_cons] at hfuel
          obtain ⟨F, rfl⟩ : ∃ F, fuel = F + 1 := ⟨fuel - 1, by omega⟩
          conv_lhs => rw [parseValue.eq_def]
          have hn1 : ¬c = 'n' := char_ne_of_pred hd (by decide)
          have hn2 : ¬c = 't' := char_ne_of_pred hd (by decide)
          have hn3 : ¬c = 'f' := char_ne_of_pred hd (by decide)
          have hn4 : ¬c = '"' := char_ne_of_pred hd (by decide)
          have hn5 : ¬c = '-' := char_ne_of_pred hd (by decide)
          have hn6 : ¬c = '[' := char_ne_of_pred hd (by decide)
          have hn7 : ¬c = lbrace := char_ne_of_pred hd (by decide)
          simp only [List.cons_append]
          simp [hn1, hn2, hn3, hn4, hn5, hn6, hn7, hd]
          exact ⟨n.natAbs,
            by
              rw [show c :: (t ++ rest) = (c :: t) ++ rest from rfl, ← he]
              exact parseNat_natDigits _ rest hrest,
            by omega⟩
      | str s =>
        rw [renderJson_str] at hfuel ⊢
        rw [quoteStr] at hfuel ⊢
        simp only [List.length_cons, List.length_append] at hfuel
        obtain ⟨F, rfl⟩ : ∃ F, fuel = F + 1 := ⟨fuel - 1, by omega⟩
        conv_lhs => rw [parseValue.eq_def]
        simp only [List.cons_append]
        simp only [reduceIte]
        rw [List.append_assoc, List.singleton_append,
          parseStringBody_escape s.data
            (by
              rw [wfJson] at hwf
              rw [wfStr] at hwf
              exact fun c hc => by simpa using List.all_eq_true.mp hwf c hc)
            rest]
        simp
      | arr es =>
        cases es with
        | nil =>
          rw [renderJson_arr_nil] at hfuel ⊢
          simp only [List.length_cons, List.length_nil] at hfuel
          obtain ⟨F, rfl⟩ : ∃ F, fuel = F + 1 := ⟨fuel - 1, by omega⟩
          rw [show (['[', ']'] : List Char) ++ rest = '[' :: (']' :: rest)
            from rfl]
          exact parseValue_arr_nil_step F _ rest
            (skipWs_cons_of_not_ws (by decide) rest)
        | cons e es =>
          obtain ⟨hwfe, hwfes⟩ := wfJson_arr_cons hwf
          obtain ⟨c1, t1, hre, hrws, hrne⟩ := renderJson_head e (d + 1)
          rw [renderJson_arr_cons] at hfuel
          simp only [List.length_cons, List.length_append, indentChars,
            List.length_replicate, List.length_nil] at hfuel
          obtain ⟨F, rfl⟩ : ∃ F, fuel = F + 1 := ⟨fuel - 1, by omega⟩
          have hshape : renderJson (.arr (e :: es)) d ++ rest
              = '[' :: ('\n' :: (indentChars (d + 1) ++ (renderJson e (d + 1) ++
                  (renderElems es (d + 1) ++
                    (('\n' :: indentChars d) ++ (']' :: rest)))))) := by
            rw [renderJson_arr_cons]
            simp [List.append_assoc]
          have hskip : skipWs ('\n' :: (indentChars (d + 1) ++
              (renderJson e (d + 1) ++ (renderElems es (d + 1) ++
                (('\n' :: indentChars d) ++ (']' :: rest))))))
              = c1 :: (t1 ++ (renderElems es (d + 1) ++
                  (('\n' :: indentChars d) ++ (']' :: rest)))) := by
            rw [skipWs_cons_of_ws (by decide),
              skipWs_append_of_ws _ _ (indentChars_ws (d + 1)), hre,
              List.cons_append, skipWs_cons_of_not_ws hrws]
          rw [hshape, parseValue_arr_step F _ c1 _ hskip hrne]
          have hfold : c1 :: (t1 ++ (renderElems es (d + 1) ++
              (('\n' :: indentChars d) ++ (']' :: rest))))
              = renderJson e (d + 1) ++ (renderElems es (d + 1) ++
                  (('\n' :: indentChars d) ++ (']' :: rest))) := by
            rw [hre]
            rfl
          have hmeas : sizeOf e + sizeOf es ≤ N - 1 := by
            simp_arith at hsz
            omega
          have hN : N - 1 < N := by
            have := json_sizeOf_pos e
            simp_arith at hsz
            omega
          have helems := (ih (N - 1) hN).2.1 e es hmeas hwfe hwfes (d + 1)
            ('\n' :: indentChars d) rest
            (by
              intro x hx
              rcases List.mem_cons.mp hx with rfl | hx
              · rfl
              · exact indentChars_ws d x hx)
            F (by omega)
          rw [hfold, helems]
          rfl
      | obj ms =>
        cases ms with
        | nil =>
          rw [renderJson_obj_nil] at hfuel ⊢
          simp only [List.length_cons, List.length_nil] at hfuel
          obtain ⟨F, rfl⟩ : ∃ F, fuel = F + 1 := ⟨fuel - 1, by omega⟩
          rw [show ([lbrace, rbrace] : List Char) ++ rest
            = lbrace :: (rbrace :: rest) from rfl]
          exact parseValue_obj_nil_step F _ rest
            (skipWs_cons_of_not_ws (by decide) rest)
        | cons m ms =>
          obtain ⟨k, v⟩ := m
          obtain ⟨hwfk, hwfv, _, hwfms⟩ := wfJson_obj_cons hwf
          rw [renderJson_obj_cons] at hfuel
          simp only [List.length_cons, List.length_append, indentChars,
            List.length_replicate, List.length_nil] at hfuel
          obtain ⟨F, rfl⟩ : ∃ F, fuel = F + 1 := ⟨fuel - 1, by omega⟩
          have hshape : renderJson (.obj ((k, v) :: ms)) d ++ rest
              = lbrace :: ('\n' :: (indentChars (d + 1) ++ (quoteStr k ++
                  (':' :: ' ' :: (renderJson v (d + 1) ++
                    (renderMembers ms (d + 1) ++
                      (('\n' :: indentChars d) ++ (rbrace :: rest)))))))) := by
            rw [renderJson_obj_cons]
            simp [List.append_assoc]
          have hmin : quoteStr k ++
              (':' :: ' ' :: (renderJson v (d + 1) ++
                (renderMembers ms (d + 1) ++
                  (('\n' :: indentChars d) ++ (rbrace :: rest)))))
              = '"' :: (k.data.flatMap escapeChar ++
                ('"' :: (':' :: ' ' :: (renderJson v (d + 1) ++
                  (renderMembers ms (d + 1) ++
                    (('\n' :: indentChars d) ++ (rbrace :: rest))))))) := by
            rw [quoteStr]
            simp [List.append_assoc]
          have hskip : skipWs ('\n' :: (indentChars (d + 1) ++ (quoteStr k ++
              (':' :: ' ' :: (renderJson v (d + 1) ++
                (renderMembers ms (d + 1) ++
                  (('\n' :: indentChars d) ++ (rbrace :: rest))))))))
              = '"' :: (k.data.flatMap escapeChar ++
                ('"' :: (':' :: ' ' :: (renderJson v (d + 1) ++
                  (renderMembers ms (d + 1) ++
                    (('\n' :: indentChars d) ++ (rbrace :: rest))))))) := by
            rw [skipWs_cons_of_ws (by decide),
              skipWs_append_of_ws _ _ (indentChars_ws (d + 1)), hmin,
              skipWs_cons_of_not_ws (by decide)]
          rw [hshape, parseValue_obj_step F _ '"' _ hskip (by decide)]
          have hmeas : sizeOf v + sizeOf ms ≤ N - 1 := by
            simp_arith at hsz
            omega
          have hN : N - 1 < N := by
            have := json_sizeOf_pos v
            simp_arith at hsz
            omega
          have hmem := (ih (N - 1) hN).2.2 k v ms hmeas hwfk hwfv hwfms (d + 1)
            ('\n' :: indentChars d) rest
            (by
              intro x hx
              rcases List.mem_cons.mp hx with rfl | hx
              · rfl
              · exact indentChars_ws d x hx)
            F (by omega)
          rw [← hmin, hmem]
          simp only [Option.map_some']
          rw [dedupPairs_of_wf _ hwf]
    · -- elements of a non-empty array
      intro e es hsz hwfe hwfes d ws rest hws fuel hfuel
      obtain ⟨F, rfl⟩ : ∃ F, fuel = F + 1 := ⟨fuel - 1, by omega⟩
      have hes1 : 1 ≤ sizeOf es := by cases es <;> simp_arith
      have he1 : 1 ≤ sizeOf e := json_sizeOf_pos e
      have hN : N - 1 < N := by omega
      have hnd : noDigitHead (renderElems es d ++ (ws ++ ']' :: rest)) := by
        cases es with
        | nil =>
          rw [renderElems_nil, List.nil_append]
          cases ws with
          | nil => exact rfl
          | cons w t =>
            show charIsDigit w = false
            exact not_digit_of_ws (hws w (List.mem_cons_self ..))
        | cons e2 es2 =>
          rw [renderElems_cons]
          exact rfl
      have hval := (ih (N - 1) hN).1 e (by omega) hwfe d _ hnd F (by omega)
      cases es with
      | nil =>
        rw [renderElems_nil, List.nil_append] at hval ⊢
        have hskipr : skipWs (ws ++ ']' :: rest) = ']' :: rest := by
          rw [skipWs_append_of_ws _ _ hws, skipWs_cons_of_not_ws (by decide)]
        exact parseElems_last_step F _ e _ rest hval hskipr
      | cons e2 es2 =>
        obtain ⟨hwfe2, hwfes2⟩ := wfJson_arr_cons hwfes
        obtain ⟨c2, t2, hre2, hrws2, _⟩ := renderJson_head e2 d
        have hRM : renderElems (e2 :: es2) d ++ (ws ++ ']' :: rest)
            = ',' :: ('\n' :: (indentChars d ++ (renderJson e2 d ++
                (renderElems es2 d ++ (ws ++ ']' :: rest))))) := by
          rw [renderElems_cons]
          simp [List.append_assoc]
        have hcomma : skipWs (renderElems (e2 :: es2) d ++ (ws ++ ']' :: rest))
            = ',' :: ('\n' :: (indentChars d ++ (renderJson e2 d ++
                (renderElems es2 d ++ (ws ++ ']' :: rest))))) := by
          rw [hRM]
          exact skipWs_cons_of_not_ws (by decide) _
        have hskipr4 : skipWs ('\n' :: (indentChars d ++ (renderJson e2 d ++
            (renderElems es2 d ++ (ws ++ ']' :: rest)))))
            = renderJson e2 d ++ (renderElems es2 d ++ (ws ++ ']' :: rest)) := by
          rw [skipWs_cons_of_ws (by decide),
            skipWs_append_of_ws _ _ (indentChars_ws d), hre2,
            List.cons_append, skipWs_cons_of_not_ws hrws2, ← List.cons_append,
            ← hre2]
        have hmeas2 : sizeOf e2 + sizeOf es2 ≤ N - 1 := by
          simp_arith at hsz
          omega
        have hrec : parseElems F (skipWs ('\n' :: (indentChars d ++
            (renderJson e2 d ++ (renderElems es2 d ++ (ws ++ ']' :: rest))))))
            = some (e2 :: es2, rest) := by
          rw [hskipr4]
          exact (ih (N - 1) hN).2.1 e2 es2 hmeas2 hwfe2 hwfes2 d ws rest hws F
            (by
              rw [renderElems_cons] at hfuel
              simp only [List.length_cons, List.length_append, indentChars,
                List.length_replicate] at hfuel ⊢
              omega)
        exact parseElems_more_step F _ e _ _ (e2 :: es2) rest hval hcomma hrec
    · -- members of a non-empty object
      intro k v ms hsz hwfk hwfv hwfms d ws rest hws fuel hfuel
      obtain ⟨kl⟩ := k
      obtain ⟨F, rfl⟩ : ∃ F, fuel = F + 1 := ⟨fuel - 1, by omega⟩
      have hv1 : 1 ≤ sizeOf v := json_sizeOf_pos v
      have hms1 : 1 ≤ sizeOf ms := by cases ms <;> simp_arith
      have hN : N - 1 < N := by omega
      have hmin : quoteStr (String.mk kl) ++
          (':' :: ' ' :: (renderJson v d ++ (renderMembers ms d ++
            (ws ++ rbrace :: rest))))
          = '"' :: ((String.mk kl).data.flatMap escapeChar ++
            ('"' :: (':' :: ' ' :: (renderJson v d ++ (renderMembers ms d ++
              (ws ++ rbrace :: rest)))))) := by
        rw [quoteStr]
        simp [List.append_assoc]
      rw [hmin]
      obtain ⟨c1, t1, hre, hrws, _⟩ := renderJson_head v d
      have hkey : parseStringBody ((String.mk kl).data.flatMap escapeChar ++
          ('"' :: (':' :: ' ' :: (renderJson v d ++ (renderMembers ms d ++
            (ws ++ rbrace :: rest))))))
          = some ((String.mk kl).data,
              ':' :: ' ' :: (renderJson v d ++ (renderMembers ms d ++
                (ws ++ rbrace :: rest)))) :=
        parseStringBody_escape (String.mk kl).data
          (fun c hc => by
            rw [wfStr] at hwfk
            simpa using List.all_eq_true.mp hwfk c hc) _
      have hcolon : skipWs (':' :: ' ' :: (renderJson v d ++
          (renderMembers ms d ++ (ws ++ rbrace :: rest))))
          = ':' :: (' ' :: (renderJson v d ++ (renderMembers ms d ++
              (ws ++ rbrace :: rest)))) :=
        skipWs_cons_of_not_ws (by decide) _
      have hskipv : skipWs (' ' :: (renderJson v d ++ (renderMembers ms d ++
          (ws ++ rbrace :: rest))))
          = renderJson v d ++ (renderMembers ms d ++ (ws ++ rbrace :: rest)) := by
        rw [skipWs_cons_of_ws (by decide), hre, List.cons_append,
          skipWs_cons_of_not_ws hrws, ← List.cons_append, ← hre]
      have hnd : noDigitHead (renderMembers ms d ++ (ws ++ rbrace :: rest)) := by
        cases ms with
        | nil =>
          rw [renderMembers_nil, List.nil_append]
          cases ws with
          | nil => exact rfl
          | cons w t =>
            show charIsDigit w = false
            exact not_digit_of_ws (hws w (List.mem_cons_self ..))
        | cons m2 ms2 =>
          rw [renderMembers_cons]
          exact rfl
      have hvalm : parseValue F (skipWs (' ' :: (renderJson v d ++
          (renderMembers ms d ++ (ws ++ rbrace :: rest)))))
          = some (v, renderMembers ms d ++ (ws ++ rbrace :: rest)) := by
        rw [hskipv]
        exact (ih (N - 1) hN).1 v (by omega) hwfv d _ hnd F (by omega)
      cases ms with
      | nil =>
        have hclose : skipWs (renderMembers ([] : List (String × Json)) d ++
            (ws ++ rbrace :: rest)) = rbrace :: rest := by
          rw [renderMembers_nil, List.nil_append,
            skipWs_append_of_ws _ _ hws, skipWs_cons_of_not_ws (by decide)]
        exact parseMembers_last_step F _ kl _ _ v _ rest hkey hcolon hvalm
          hclose
      | cons m2 ms2 =>
        obtain ⟨k2, v2⟩ := m2
        obtain ⟨hwfk2, hwfv2, _, hwfms2⟩ := wfJson_obj_cons hwfms
        have hRM : renderMembers ((k2, v2) :: ms2) d ++ (ws ++ rbrace :: rest)
            = ',' :: ('\n' :: (indentChars d ++ (quoteStr k2 ++
                (':' :: ' ' :: (renderJson v2 d ++ (renderMembers ms2 d ++
                  (ws ++ rbrace :: rest))))))) := by
          rw [renderMembers_cons]
          simp [List.append_assoc]
        have hcomma : skipWs (renderMembers ((k2, v2) :: ms2) d ++
            (ws ++ rbrace :: rest))
            = ',' :: ('\n' :: (indentChars d ++ (quoteStr k2 ++
                (':' :: ' ' :: (renderJson v2 d ++ (renderMembers ms2 d ++
                  (ws ++ rbrace :: rest))))))) := by
          rw [hRM]
          exact skipWs_cons_of_not_ws (by decide) _
        have hmin2 : quoteStr k2 ++ (':' :: ' ' :: (renderJson v2 d ++
            (renderMembers ms2 d ++ (ws ++ rbrace :: rest))))
            = '"' :: (k2.data.flatMap escapeChar ++
              ('"' :: (':' :: ' ' :: (renderJson v2 d ++
                (renderMembers ms2 d ++ (ws ++ rbrace :: rest)))))) := by
          rw [quoteStr]
          simp [List.append_assoc]
        have hskipr4 : skipWs ('\n' :: (indentChars d ++ (quoteStr k2 ++
            (':' :: ' ' :: (renderJson v2 d ++ (renderMembers ms2 d ++
              (ws ++ rbrace :: rest)))))))
            = quoteStr k2 ++ (':' :: ' ' :: (renderJson v2 d ++
                (renderMembers ms2 d ++ (ws ++ rbrace :: rest)))) := by
          rw [skipWs_cons_of_ws (by decide),
            skipWs_append_of_ws _ _ (indentChars_ws d), hmin2,
            skipWs_cons_of_not_ws (by decide), ← hmin2]
        have hmeas2 : sizeOf v2 + sizeOf ms2 ≤ N - 1 := by
          simp_arith at hsz
          omega
        have hrec : parseMembers F (skipWs ('\n' :: (indentChars d ++
            (quoteStr k2 ++ (':' :: ' ' :: (renderJson v2 d ++
              (renderMembers ms2 d ++ (ws ++ rbrace :: rest))))))))
            = some ((k2, v2) :: ms2, rest) := by
          rw [hskipr4]
          exact (ih (N - 1) hN).2.2 k2 v2 ms2 hmeas2 hwfk2 hwfv2 hwfms2 d ws
            rest hws F
            (by
              rw [renderMembers_cons] at hfuel
              simp only [List.length_cons, List.length_append, indentChars,
                List.length_replicate] at hfuel ⊢
              omega)
        exact parseMembers_more_step F _ kl _ _ v _ _ ((k2, v2) :: ms2) rest
          hkey hcolon hvalm hcomma hrec



/-- A well-formed value parses back from its own serialization: `json.loads`
inverts `json.dumps(v, indent=2)`. -/
theorem loads_dumps (v : Json) (hwf : wfJson v = true) :
    loads (dumps v) = some v := by
  obtain ⟨c, t, hre, hws, _⟩ := renderJson_head v 0
  have hlen : (dumps v).length = (renderJson v 0).length := rfl
  have hdata : (dumps v).data = renderJson v 0 := rfl
  have hparse := (parse_render_all (sizeOf v)).1 v le_rfl hwf 0 [] trivial
    (2 * (dumps v).length + 2) (by omega)
  rw [List.append_nil] at hparse
  rw [loads, hdata, hre, skipWs_cons_of_not_ws hws, ← hre, hparse]
  rfl

/-- C4 (amended): save-after-load is the identity on content already in the
canonical `indent=2` serialization that `_save_dashboard` itself produces:
for every well-formed document value `v`, loading `dumps v` succeeds and
saving writes back exactly the same bytes. -/
theorem C4_canonical_roundtrip_amended (v : Json) (hwf : wfJson v = true) :
    saveAfterLoad (dumps v) = some (dumps v) := by
  rw [saveAfterLoad, loads_dumps v hwf, Option.map_some']

theorem C4_canonical_roundtrip_amended_witness :
    wfJson (.arr [.int 1, .int 2, .int 3]) = true ∧
      saveAfterLoad (dumps (.arr [.int 1, .int 2, .int 3]))
        = some (dumps (.arr [.int 1, .int 2, .int 3])) :=
  ⟨by simp [wfJson],
    C4_canonical_roundtrip_amended (.arr [.int 1, .int 2, .int 3])
      (by simp [wfJson])⟩

end SkillManagerTreeshell
